import Mathlib

/-!
Verification development for the council-meeting-analyzer pipeline.

Each section embeds one part of the Python source as executable Lean
definitions (floats become rationals, JSON-ish dicts become structures with
optional fields, external capabilities such as LLM calls become oracle
parameters), and proves or refutes the specification claims against them.
-/

namespace CouncilAnalyzer

/-! ## Python string primitives

Python operates on `str`; we model the relevant operations (`lower`,
`strip`, whitespace `split`) on `List Char` so that everything computes by
kernel reduction.  `Char.toLower` models `str.lower` (faithful on the ASCII
texts at hand), `stripChars` models `str.strip`, and `splitWords` models
jiwer's whitespace tokenisation (split on whitespace runs, dropping empty
tokens). -/

def pyLower (s : String) : List Char := s.data.map Char.toLower

def stripChars (cs : List Char) : List Char :=
  ((cs.dropWhile Char.isWhitespace).reverse.dropWhile Char.isWhitespace).reverse

def splitWords (cs : List Char) : List (List Char) :=
  let step := fun (c : Char) (acc : List (List Char) × List Char) =>
    if c.isWhitespace then
      if acc.2 = [] then acc else (acc.2 :: acc.1, [])
    else (acc.1, c :: acc.2)
  let r := cs.foldr step ([], [])
  if r.2 = [] then r.1 else r.2 :: r.1

/-- Normalisation performed inside `calculate_segment_wer`:
`text.lower().strip()`. -/
def normalizeText (s : String) : List Char := stripChars (pyLower s)

/-- Words of the normalised text, as tokenised by jiwer. -/
def werWords (s : String) : List (List Char) := splitWords (normalizeText s)

/-! ## Model of jiwer.wer (validator.py line 87)

jiwer computes the word-level Levenshtein distance between reference and
hypothesis divided by the number of reference words, and raises (modelled
as `none`) when the reference tokenises to no words; `calculate_segment_wer`
catches that exception and returns 1.0. -/

def jiwer_wer (reference hypothesis : List Char) : Option ℚ :=
  let r := splitWords reference
  let h := splitWords hypothesis
  if r.length = 0 then none
  else
    let d : ℕ := levenshtein Levenshtein.defaultCost r h
    some ((d : ℚ) / (r.length : ℚ))

/-- Model of validator.calculate_segment_wer (validator.py lines 74-89). -/
def calculate_segment_wer (text1 text2 : String) : ℚ :=
  if text1 = "" ∨ text2 = "" then 1
  else
    let t1 := stripChars (pyLower text1)
    let t2 := stripChars (pyLower text2)
    if t1 = t2 then 0
    else
      match jiwer_wer t1 t2 with
      | some w => w
      | none => 1

/-! ## Transcript data (the engine JSON files of §6) -/

/-- One ASR segment from a transcript JSON file.  The JSON key named end is
modelled by the field `stop` (end is reserved in Lean); `start`/`stop` are
`Option` because the Python reads them with `.get(...)` and coalesces
`None` (and falsy `0.0`) to `0` via `or 0`, which `Option.getD 0` mirrors. -/
structure TSegment where
  start : Option ℚ
  stop : Option ℚ
  text : String
deriving DecidableEq, Repr

/-- A loaded transcript JSON file: full text plus segment list. -/
structure Transcript where
  text : String
  segments : List TSegment
deriving DecidableEq, Repr

/-- One entry of the divergent-segment list built by compare_transcripts. -/
structure DivergentSegment where
  segment_index : ℕ
  start : ℚ
  stop : ℚ
  wer : ℚ
  large_text : String
  medium_text : String
deriving DecidableEq, Repr

/-- config.VALIDATION_WER_THRESHOLD default 0.15. -/
def VALIDATION_WER_THRESHOLD : ℚ := 15 / 100

/-- Concatenation of the secondary segments overlapping the primary window
(the inner loop of compare_transcripts, validator.py lines 125-134):
`s_text += " " + s_seg.text` for every overlapping segment, then `strip`. -/
def overlapConcat (p_start p_end : ℚ) (secondary_segments : List TSegment) : String :=
  String.mk (stripChars (secondary_segments.foldl (fun acc s_seg =>
    let s_start := s_seg.start.getD 0
    let s_end := s_seg.stop.getD 0
    if s_start ≤ p_end ∧ p_start ≤ s_end then acc ++ (' ' :: s_seg.text.data) else acc) []))

/-- Model of validator.compare_transcripts (validator.py lines 101-147). -/
def compare_transcripts (primary secondary : Transcript) : ℚ × List DivergentSegment :=
  let overall_wer := calculate_segment_wer primary.text secondary.text
  let divergent := primary.segments.enum.filterMap (fun p =>
    let i := p.1
    let p_seg := p.2
    let p_start := p_seg.start.getD 0
    let p_end := p_seg.stop.getD 0
    let s_text := overlapConcat p_start p_end secondary.segments
    let seg_wer := calculate_segment_wer p_seg.text s_text
    if VALIDATION_WER_THRESHOLD < seg_wer then
      some ⟨i, p_start, p_end, seg_wer, p_seg.text, s_text⟩
    else none)
  (overall_wer, divergent)

/-- Model of the comparison step of validator.validate_meeting (lines
286-295): with a loaded secondary transcript it compares; with the
secondary file missing (or loading falsy) it records WER 0 and no
divergent segments. -/
def validate_meeting_wer (primary : Transcript) (secondary : Option Transcript) :
    ℚ × List DivergentSegment :=
  match secondary with
  | some s => compare_transcripts primary s
  | none => (0, [])

/-! ## Generic facts about the word-level edit distance used by jiwer -/

theorem lev_nil_left {α : Type} [DecidableEq α] (ys : List α) :
    levenshtein Levenshtein.defaultCost ([] : List α) ys = ys.length := by
  induction ys with
  | nil => simp
  | cons y ys ih => simp [ih]; omega

theorem lev_nil_right {α : Type} [DecidableEq α] (xs : List α) :
    levenshtein Levenshtein.defaultCost xs ([] : List α) = xs.length := by
  induction xs with
  | nil => simp
  | cons x xs ih => simp [ih]; omega

theorem lev_le_max {α : Type} [DecidableEq α] (xs ys : List α) :
    levenshtein Levenshtein.defaultCost xs ys ≤ max xs.length ys.length := by
  induction xs generalizing ys with
  | nil => simp [lev_nil_left]
  | cons x xs ih =>
    cases ys with
    | nil => simp [lev_nil_right]; omega
    | cons y ys =>
      rw [levenshtein_cons_cons]
      have h1 : (Levenshtein.defaultCost.substitute x y +
          levenshtein Levenshtein.defaultCost xs ys) ≤ 1 + max xs.length ys.length := by
        have h2 : Levenshtein.defaultCost.substitute x y ≤ 1 := by
          simp [Levenshtein.defaultCost]
          split <;> simp
        exact Nat.add_le_add h2 (ih ys)
      calc min (Levenshtein.defaultCost.delete x +
              levenshtein Levenshtein.defaultCost xs (y :: ys))
            (min (Levenshtein.defaultCost.insert y +
              levenshtein Levenshtein.defaultCost (x :: xs) ys)
              (Levenshtein.defaultCost.substitute x y +
                levenshtein Levenshtein.defaultCost xs ys))
          ≤ Levenshtein.defaultCost.substitute x y +
              levenshtein Levenshtein.defaultCost xs ys :=
            le_trans (min_le_right _ _) (min_le_right _ _)
        _ ≤ 1 + max xs.length ys.length := h1
        _ ≤ max (x :: xs).length (y :: ys).length := by
            simp [List.length_cons, Nat.succ_max_succ]
            omega

theorem jiwer_wer_nonneg {r h : List Char} {w : ℚ} (he : jiwer_wer r h = some w) :
    0 ≤ w := by
  unfold jiwer_wer at he
  dsimp only at he
  split at he
  · exact absurd he (by simp)
  · simp only [Option.some.injEq] at he
    subst he
    positivity

theorem jiwer_wer_le_one {r h : List Char} {w : ℚ}
    (hlen : (splitWords h).length ≤ (splitWords r).length)
    (he : jiwer_wer r h = some w) : w ≤ 1 := by
  unfold jiwer_wer at he
  dsimp only at he
  split at he
  · exact absurd he (by simp)
  · simp only [Option.some.injEq] at he
    subst he
    rename_i hne
    have hpos : (0 : ℚ) < ((splitWords r).length : ℚ) := by
      have : 0 < (splitWords r).length := Nat.pos_of_ne_zero hne
      exact_mod_cast this
    rw [div_le_one hpos]
    have hd : levenshtein Levenshtein.defaultCost (splitWords r) (splitWords h) ≤
        (splitWords r).length := by
      calc levenshtein Levenshtein.defaultCost (splitWords r) (splitWords h)
          ≤ max (splitWords r).length (splitWords h).length := lev_le_max _ _
        _ = (splitWords r).length := Nat.max_eq_left hlen
    exact_mod_cast hd

theorem calculate_segment_wer_nonneg (t1 t2 : String) :
    0 ≤ calculate_segment_wer t1 t2 := by
  unfold calculate_segment_wer
  split
  · norm_num
  · dsimp only
    split
    · norm_num
    · cases he : jiwer_wer (stripChars (pyLower t1)) (stripChars (pyLower t2)) with
      | none => norm_num
      | some w => exact jiwer_wer_nonneg he

theorem calculate_segment_wer_le_one (t1 t2 : String)
    (hlen : (werWords t2).length ≤ (werWords t1).length) :
    calculate_segment_wer t1 t2 ≤ 1 := by
  unfold calculate_segment_wer
  split
  · norm_num
  · dsimp only
    split
    · norm_num
    · cases he : jiwer_wer (stripChars (pyLower t1)) (stripChars (pyLower t2)) with
      | none => norm_num
      | some w => exact jiwer_wer_le_one hlen he

/-! ## Claim C1 : WER boundary values -/

/-- C1 counterexample: the two whole texts are bytewise identical (both
empty, with the secondary transcript file present), yet the recorded
WERScore is 1, not 0 — `calculate_segment_wer` returns 1.0 whenever either
text is empty, before the identity check. -/
theorem c1_counterexample :
    (Transcript.mk "" []).text = (Transcript.mk "" []).text ∧
    (validate_meeting_wer ⟨"", []⟩ (some ⟨"", []⟩)).1 = 1 ∧ (1 : ℚ) ≠ 0 := by
  refine ⟨rfl, ?_, by norm_num⟩
  show (compare_transcripts ⟨"", []⟩ ⟨"", []⟩).1 = 1
  unfold compare_transcripts
  dsimp only
  unfold calculate_segment_wer
  rw [if_pos (Or.inl rfl)]

/-- C1 (amended): the recorded WERScore is 0 when the two texts are
bytewise identical and nonempty; it is 1 whenever either text is empty
(including when both are, where the claim expected 0); when the secondary
transcript file is missing, the validator records WERScore 0 with no
divergent segments. -/
theorem c1_wer_boundary_amended (primary secondary other : Transcript) :
    (primary.text = secondary.text → primary.text ≠ "" →
      (compare_transcripts primary secondary).1 = 0) ∧
    (primary.text = "" ∨ secondary.text = "" →
      (compare_transcripts primary secondary).1 = 1) ∧
    validate_meeting_wer other none = (0, []) := by
  refine ⟨?_, ?_, rfl⟩
  · intro heq hne
    have h2 : secondary.text ≠ "" := heq ▸ hne
    show calculate_segment_wer primary.text secondary.text = 0
    unfold calculate_segment_wer
    rw [if_neg (not_or.mpr ⟨hne, h2⟩)]
    dsimp only
    rw [heq, if_pos rfl]
  · intro h
    show calculate_segment_wer primary.text secondary.text = 1
    unfold calculate_segment_wer
    rw [if_pos h]

/-- Witness for c1_wer_boundary_amended at concrete transcripts. -/
theorem c1_wer_boundary_amended_witness :
    (compare_transcripts ⟨"x", []⟩ ⟨"x", []⟩).1 = 0 ∧
    (compare_transcripts ⟨"", []⟩ ⟨"ab", []⟩).1 = 1 ∧
    validate_meeting_wer ⟨"q", []⟩ none = (0, []) :=
  ⟨(c1_wer_boundary_amended ⟨"x", []⟩ ⟨"x", []⟩ ⟨"q", []⟩).1 rfl (by decide),
   (c1_wer_boundary_amended ⟨"", []⟩ ⟨"ab", []⟩ ⟨"q", []⟩).2.1 (Or.inl rfl),
   (c1_wer_boundary_amended ⟨"x", []⟩ ⟨"x", []⟩ ⟨"q", []⟩).2.2⟩

/-! ## Claim C2 : WERScore range -/

/-- C2 counterexample: with primary text a single word and secondary text
three words, jiwer's word error rate is 2/1 = 2, so the persisted WERScore
exceeds 1 — the code never clamps it to the claimed interval. -/
theorem c2_counterexample :
    (validate_meeting_wer ⟨"a", []⟩ (some ⟨"a b c", []⟩)).1 = 2 ∧
    ¬ (validate_meeting_wer ⟨"a", []⟩ (some ⟨"a b c", []⟩)).1 ≤ 1 := by
  have hlev : levenshtein Levenshtein.defaultCost
      (splitWords (stripChars (pyLower "a")))
      (splitWords (stripChars (pyLower "a b c"))) = 2 := by decide
  have hlen : (splitWords (stripChars (pyLower "a"))).length = 1 := by decide
  have hmain : (validate_meeting_wer ⟨"a", []⟩ (some ⟨"a b c", []⟩)).1 = 2 := by
    show calculate_segment_wer "a" "a b c" = 2
    unfold calculate_segment_wer
    rw [if_neg (by decide)]
    dsimp only
    rw [if_neg (by decide)]
    unfold jiwer_wer
    dsimp only
    rw [if_neg (by decide)]
    rw [hlev, hlen]
    norm_num
  exact ⟨hmain, by rw [hmain]; norm_num⟩

/-- C2 (amended): every WER the validator computes — the overall score and
each divergent segment's per-segment score — is nonnegative, and it is at
most 1 whenever the hypothesis side has no more normalised words than the
reference side; without that condition the score can exceed 1 (see the
counterexample). -/
theorem c2_wer_range_amended (primary : Transcript) (secondary : Option Transcript)
    (t1 t2 : String) :
    0 ≤ calculate_segment_wer t1 t2 ∧
    ((werWords t2).length ≤ (werWords t1).length → calculate_segment_wer t1 t2 ≤ 1) ∧
    0 ≤ (validate_meeting_wer primary secondary).1 ∧
    ∀ d ∈ (validate_meeting_wer primary secondary).2, 0 ≤ d.wer := by
  refine ⟨calculate_segment_wer_nonneg t1 t2, calculate_segment_wer_le_one t1 t2, ?_, ?_⟩
  · cases secondary with
    | none => norm_num [validate_meeting_wer]
    | some s => exact calculate_segment_wer_nonneg _ _
  · intro d hd
    cases secondary with
    | none => simp [validate_meeting_wer] at hd
    | some s =>
      simp only [validate_meeting_wer, compare_transcripts, List.mem_filterMap] at hd
      obtain ⟨p, hp, heq⟩ := hd
      split at heq
      · cases heq
        exact calculate_segment_wer_nonneg _ _
      · cases heq

/-- Witness for c2_wer_range_amended at concrete inputs. -/
theorem c2_wer_range_amended_witness :
    0 ≤ calculate_segment_wer "a b" "b" ∧ calculate_segment_wer "a b" "b" ≤ 1 ∧
    0 ≤ (validate_meeting_wer ⟨"", []⟩ none).1 :=
  ⟨(c2_wer_range_amended ⟨"", []⟩ none "a b" "b").1,
   (c2_wer_range_amended ⟨"", []⟩ none "a b" "b").2.1 (by decide),
   (c2_wer_range_amended ⟨"", []⟩ none "a b" "b").2.2.1⟩

/-! ## utils.parse_meeting_date (utils.py lines 8-28) -/

def digitVal (c : Char) : ℕ := c.toNat - '0'.toNat

/-- Matcher for one regex group of `(\d{1,2})/`: greedily two digits then a
slash, else one digit then a slash.  Backtracking cannot mix the cases: if
two digits are present, the single-digit alternative would need the second
digit to also be the slash. -/
def matchGroupSlash (cs : List Char) : Option (ℕ × List Char) :=
  match cs with
  | a :: b :: rest =>
    if a.isDigit ∧ b.isDigit then
      match rest with
      | '/' :: rest2 => some (10 * digitVal a + digitVal b, rest2)
      | _ => none
    else if a.isDigit ∧ b = '/' then some (digitVal a, rest)
    else none
  | _ => none

/-- Matcher for the final regex group `(\d{2})`: exactly two digits, with
anything allowed after them (the pattern is unanchored on the right). -/
def matchYearGroup : List Char → Option ℕ
  | a :: b :: _ =>
    if a.isDigit ∧ b.isDigit then some (10 * digitVal a + digitVal b) else none
  | _ => none

/-- Model of Python re.match of `(\d{1,2})/(\d{1,2})/(\d{2})` against the
start of the title, returning month, day and two-digit year. -/
def matchMDY (title : String) : Option (ℕ × ℕ × ℕ) :=
  match matchGroupSlash title.data with
  | none => none
  | some (month, rest) =>
    match matchGroupSlash rest with
    | none => none
    | some (day, rest2) =>
      match matchYearGroup rest2 with
      | none => none
      | some year => some (month, day, year)

/-- Two-digit year resolution of utils.parse_meeting_date: below 50 maps
into the 2000s, 50 and above into the 1900s. -/
def resolveYear (year : ℕ) : ℕ := if year < 50 then 2000 + year else 1900 + year

def isLeapYear (y : ℕ) : Bool := y % 4 = 0 ∧ (y % 100 ≠ 0 ∨ y % 400 = 0)

/-- Days per month as validated by the Python datetime constructor. -/
def daysInMonth (y m : ℕ) : ℕ :=
  if m = 2 then (if isLeapYear y then 29 else 28)
  else if m = 4 ∨ m = 6 ∨ m = 9 ∨ m = 11 then 30
  else 31

/-- Validity check performed by datetime(year, month, day); the only
failure modes reachable from parse_meeting_date are month or day out of
range (the resolved year is always 1950-2049). -/
def dateValid (y m d : ℕ) : Bool := 1 ≤ m ∧ m ≤ 12 ∧ 1 ≤ d ∧ d ≤ daysInMonth y m

def pad2 (n : ℕ) : String := if n < 10 then "0" ++ toString n else toString n

/-- Rendering of strftime of "%Y-%m-%d" (years here always have four
digits). -/
def isoDate (y m d : ℕ) : String := toString y ++ "-" ++ pad2 m ++ "-" ++ pad2 d

/-- Model of utils.parse_meeting_date (utils.py lines 8-28). -/
def parse_meeting_date (title : String) : Option String :=
  match matchMDY title with
  | none => none
  | some (month, day, year) =>
    let year_full := resolveYear year
    if dateValid year_full month day then some (isoDate year_full month day)
    else none

/-! ## Claim C8 : date parsing from meeting titles -/

/-- C8: parse_meeting_date reads an M/D/YY date from the start of the
title; two-digit years below 50 resolve to 2000+year and years of at least
50 to 1900+year (1/1/00 to 2000, 1/1/49 to 2049, 1/1/50 to 1950), and every
title whose head matches no M/D/YY pattern, or whose matched date is not a
valid calendar date, yields null. -/
theorem c8_parse_meeting_date (title : String) :
    parse_meeting_date "1/1/00 City Council" = some "2000-01-01" ∧
    parse_meeting_date "1/1/49 City Council" = some "2049-01-01" ∧
    parse_meeting_date "1/1/50 City Council" = some "1950-01-01" ∧
    (matchMDY title = none → parse_meeting_date title = none) ∧
    (∀ m d y, matchMDY title = some (m, d, y) →
      parse_meeting_date title =
        if dateValid (resolveYear y) m d then some (isoDate (resolveYear y) m d)
        else none) := by
  refine ⟨by decide, by decide, by decide, ?_, ?_⟩
  · intro h
    unfold parse_meeting_date
    rw [h]
  · intro m d y h
    unfold parse_meeting_date
    rw [h]

/-- Witness for c8_parse_meeting_date: a title without a date and a title
whose matched date (month 13) fails the calendar check both yield null. -/
theorem c8_parse_meeting_date_witness :
    parse_meeting_date "Budget Meeting" = none ∧
    parse_meeting_date "13/1/24 City Council" = none := by
  constructor
  · exact (c8_parse_meeting_date "Budget Meeting").2.2.2.1 (by decide)
  · have h := (c8_parse_meeting_date "13/1/24 City Council").2.2.2.2 13 1 24 (by decide)
    rw [if_neg (by decide)] at h
    exact h

/-! ## Ledger model (database.py)

The meetings table is an association list keyed by clip_id in insertion
order; the primary key makes the key unique, which insert_meeting's
IntegrityError branch maintains. -/

/-- Python truthiness of an optional string (None and the empty string are
falsy). -/
def strTruthy : Option String → Bool
  | some s => s ≠ ""
  | none => false

structure MeetingRow where
  title : String
  meeting_date : Option String
  meeting_type : Option String
  video_url : Option String
  duration_seconds : Option ℤ
  status : String
deriving DecidableEq, Repr

structure AgendaItemRow where
  item_number : Option String
  title : Option String
  start_seconds : Option ℚ
  end_seconds : Option ℚ
  granicus_item_id : Option ℤ
deriving DecidableEq, Repr

structure LogEntry where
  clip_id : ℕ
  stage : String
  status : String
  message : String
deriving DecidableEq, Repr

/-- The durable ledger: meetings, agenda_items and processing_log tables. -/
structure Ledger where
  meetings : List (ℕ × MeetingRow)
  agenda_items : List (ℕ × AgendaItemRow)
  processing_log : List LogEntry
deriving DecidableEq, Repr

/-- Model of database.get_meeting (database.py lines 170-177). -/
def get_meeting (db : Ledger) (clip_id : ℕ) : Option MeetingRow :=
  (db.meetings.find? (fun p => p.1 == clip_id)).map (·.2)

/-- Model of database.insert_meeting (database.py lines 129-149): inserting
an already-present clip_id hits the primary-key IntegrityError, returns
False and leaves the table unchanged; otherwise the row is inserted with
status discovered. -/
def insert_meeting (db : Ledger) (clip_id : ℕ) (title : String)
    (meeting_date meeting_type video_url : Option String)
    (duration_seconds : Option ℤ) : Bool × Ledger :=
  if (db.meetings.find? (fun p => p.1 == clip_id)).isSome then (false, db)
  else (true, { db with meetings := db.meetings ++
    [(clip_id, ⟨title, meeting_date, meeting_type, video_url, duration_seconds, "discovered"⟩)] })

/-- Model of database.update_meeting_video_url (database.py lines
161-167): an unconditional UPDATE of the video_url column. -/
def update_meeting_video_url (db : Ledger) (clip_id : ℕ) (video_url : String) : Ledger :=
  { db with meetings := db.meetings.map (fun p =>
      if p.1 == clip_id then (p.1, { p.2 with video_url := some video_url }) else p) }

/-- Model of database.insert_agenda_items (database.py lines 209-227):
deletes the meeting's agenda rows and inserts the new ones. -/
def insert_agenda_items (db : Ledger) (clip_id : ℕ) (items : List AgendaItemRow) : Ledger :=
  { db with agenda_items :=
      db.agenda_items.filter (fun p => p.1 != clip_id) ++ items.map (fun it => (clip_id, it)) }

/-- Model of database.log_processing (database.py lines 347-356). -/
def log_processing (db : Ledger) (clip_id : ℕ) (stage status message : String) : Ledger :=
  { db with processing_log := db.processing_log ++ [⟨clip_id, stage, status, message⟩] }

/-! ## Discovery save path (discovery.py) -/

/-- Metadata parsed from one clip page (discovery.MeetingMetadata). -/
structure MeetingMetadata where
  clip_id : ℕ
  title : String
  meeting_date : Option String
  meeting_type : Option String
  video_url : Option String
  duration_seconds : Option ℤ
  agenda_items : List AgendaItemRow
deriving DecidableEq, Repr

structure DiscoveryStats where
  new : ℕ
  existing : ℕ
  updated : ℕ
deriving DecidableEq, Repr

/-- One iteration of the save loop of discovery.save_discovered_meetings
(discovery.py lines 220-246): an existing meeting only has a missing video
URL filled in; a new meeting is inserted together with its agenda items
and a discovery log line. -/
def save_one_meeting (db : Ledger) (stats : DiscoveryStats) (m : MeetingMetadata) :
    Ledger × DiscoveryStats :=
  match get_meeting db m.clip_id with
  | some existing =>
    let stats1 := { stats with existing := stats.existing + 1 }
    if strTruthy m.video_url ∧ ¬ strTruthy existing.video_url then
      (update_meeting_video_url db m.clip_id (m.video_url.getD ""),
       { stats1 with updated := stats1.updated + 1 })
    else (db, stats1)
  | none =>
    let r := insert_meeting db m.clip_id m.title m.meeting_date m.meeting_type
      m.video_url m.duration_seconds
    if r.1 then
      let stats1 := { stats with new := stats.new + 1 }
      let db2 := if m.agenda_items ≠ [] then insert_agenda_items r.2 m.clip_id m.agenda_items
        else r.2
      (log_processing db2 m.clip_id "discovery" "completed" ("Discovered: " ++ m.title), stats1)
    else (r.2, stats)

/-- Model of discovery.save_discovered_meetings (discovery.py lines
211-248). -/
def save_discovered_meetings (db : Ledger) (meetings : List MeetingMetadata) :
    Ledger × DiscoveryStats :=
  meetings.foldl (fun acc m => save_one_meeting acc.1 acc.2 m) (db, ⟨0, 0, 0⟩)

/-! ## Claim C6 : discovery idempotence -/

theorem get_meeting_update (db : Ledger) (c : ℕ) (u : String) (id : ℕ) :
    get_meeting (update_meeting_video_url db c u) id =
      (get_meeting db id).map
        (fun row => if id = c then { row with video_url := some u } else row) := by
  unfold get_meeting update_meeting_video_url
  dsimp only
  rw [List.find?_map]
  have hp : ((fun p : ℕ × MeetingRow => p.1 == id) ∘
      (fun p : ℕ × MeetingRow =>
        if p.1 == c then (p.1, { p.2 with video_url := some u }) else p)) =
      (fun p : ℕ × MeetingRow => p.1 == id) := by
    funext p
    by_cases h : p.1 = c
    · simp [h]
    · simp [h]
  rw [hp]
  cases hf : db.meetings.find? (fun p => p.1 == id) with
  | none => rfl
  | some p =>
    have hid : p.1 = id := by
      have h2 := List.find?_some hf
      simpa using h2
    by_cases h : id = c
    · simp [Option.map, hid, h]
    · simp [Option.map, hid, h]

theorem get_meeting_insert (db : Ledger) (c : ℕ) (t : String)
    (md mt vu : Option String) (ds : Option ℤ) (id : ℕ) :
    get_meeting (insert_meeting db c t md mt vu ds).2 id =
      if id = c ∧ get_meeting db c = none
      then some ⟨t, md, mt, vu, ds, "discovered"⟩
      else get_meeting db id := by
  unfold insert_meeting
  cases hf : db.meetings.find? (fun p => p.1 == c) with
  | some p =>
    have hc : get_meeting db c = some p.2 := by unfold get_meeting; rw [hf]; rfl
    simp only [hf, Option.isSome_some, if_true]
    rw [if_neg (fun hand => by rw [hc] at hand; exact Option.noConfusion hand.2)]
  | none =>
    have hc : get_meeting db c = none := by unfold get_meeting; rw [hf]; rfl
    simp only [hf, Option.isSome_none, Bool.false_eq_true, if_false]
    unfold get_meeting
    dsimp only
    rw [List.find?_append]
    by_cases h : id = c
    · subst h
      rw [hf]
      simp [Option.or, List.find?, hc]
    · rw [if_neg (by simp [h])]
      rw [List.find?_cons_of_neg _ (by simp [Ne.symm h])]
      cases hg : db.meetings.find? (fun p => p.1 == id) with
      | some q => simp [Option.or]
      | none => simp [Option.or, List.find?]

theorem get_meeting_insert_agenda (db : Ledger) (c : ℕ) (items : List AgendaItemRow)
    (id : ℕ) : get_meeting (insert_agenda_items db c items) id = get_meeting db id := rfl

theorem get_meeting_log (db : Ledger) (c : ℕ) (a b msg : String) (id : ℕ) :
    get_meeting (log_processing db c a b msg) id = get_meeting db id := rfl

/-- Characterisation of the meetings table after one save_discovered
iteration: only the saved meeting's row can change, and then only by the
missing-URL fill or a fresh insert. -/
theorem get_meeting_save_one (db : Ledger) (stats : DiscoveryStats)
    (m : MeetingMetadata) (id : ℕ) :
    get_meeting (save_one_meeting db stats m).1 id =
      if id = m.clip_id then
        (match get_meeting db m.clip_id with
         | some existing =>
            if strTruthy m.video_url ∧ ¬ strTruthy existing.video_url
            then some { existing with video_url := some (m.video_url.getD "") }
            else some existing
         | none => some ⟨m.title, m.meeting_date, m.meeting_type, m.video_url,
             m.duration_seconds, "discovered"⟩)
      else get_meeting db id := by
  unfold save_one_meeting
  cases hg : get_meeting db m.clip_id with
  | some existing =>
    dsimp only
    by_cases hc : strTruthy m.video_url = true ∧ ¬ strTruthy existing.video_url = true
    · simp only [if_pos hc]
      rw [get_meeting_update]
      by_cases h : id = m.clip_id
      · subst h
        rw [hg, if_pos rfl]
        simp
      · rw [if_neg h]
        simp only [if_neg h]
        cases get_meeting db id <;> rfl
    · simp only [if_neg hc]
      by_cases h : id = m.clip_id
      · subst h
        rw [if_pos rfl]
        exact hg
      · rw [if_neg h]
  | none =>
    have hf : db.meetings.find? (fun p => p.1 == m.clip_id) = none := by
      unfold get_meeting at hg
      cases hf2 : db.meetings.find? (fun p => p.1 == m.clip_id) with
      | none => rfl
      | some p => rw [hf2] at hg; exact Option.noConfusion hg
    have hins : (insert_meeting db m.clip_id m.title m.meeting_date m.meeting_type
        m.video_url m.duration_seconds).1 = true := by
      unfold insert_meeting
      rw [hf]
      rfl
    dsimp only
    rw [hins]
    simp only [if_true]
    have hget : ∀ dbx : Ledger,
        get_meeting (if m.agenda_items ≠ [] then insert_agenda_items dbx m.clip_id
            m.agenda_items else dbx) id = get_meeting dbx id := by
      intro dbx
      split <;> rfl
    rw [get_meeting_log, hget, get_meeting_insert, hg]
    by_cases h : id = m.clip_id
    · subst h
      rw [if_pos ⟨rfl, rfl⟩, if_pos rfl]
    · rw [if_neg (fun hx => h hx.1), if_neg h]

/-- A meeting metadata record is saturated in a ledger: its row exists and
a truthy metadata URL implies a truthy stored URL. -/
def meetingSaved (db : Ledger) (m : MeetingMetadata) : Prop :=
  ∃ row, get_meeting db m.clip_id = some row ∧
    (strTruthy m.video_url = true → strTruthy row.video_url = true)

theorem save_one_meeting_noop (db : Ledger) (stats : DiscoveryStats)
    (m : MeetingMetadata) (h : meetingSaved db m) :
    (save_one_meeting db stats m).1 = db := by
  obtain ⟨row, hrow, hurl⟩ := h
  unfold save_one_meeting
  rw [hrow]
  dsimp only
  rw [if_neg]
  intro hc
  exact hc.2 (hurl hc.1)

theorem save_one_meeting_preserves (db : Ledger) (stats : DiscoveryStats)
    (m' m : MeetingMetadata) (h : meetingSaved db m) :
    meetingSaved (save_one_meeting db stats m').1 m := by
  obtain ⟨row, hrow, hurl⟩ := h
  rw [meetingSaved, get_meeting_save_one]
  by_cases he : m.clip_id = m'.clip_id
  · rw [if_pos he, ← he, hrow]
    dsimp only
    by_cases hc : strTruthy m'.video_url = true ∧ ¬ strTruthy row.video_url = true
    · rw [if_pos hc]
      refine ⟨_, rfl, fun _ => ?_⟩
      obtain ⟨hc1, _⟩ := hc
      cases hu : m'.video_url with
      | none => rw [hu] at hc1; exact absurd hc1 (by simp [strTruthy])
      | some u =>
        rw [hu] at hc1
        simp only [strTruthy, ne_eq, decide_eq_true_eq] at hc1
        simp [strTruthy, hc1]
    · rw [if_neg hc]
      exact ⟨row, rfl, hurl⟩
  · rw [if_neg he]
    exact ⟨row, hrow, hurl⟩

theorem save_one_meeting_establishes (db : Ledger) (stats : DiscoveryStats)
    (m : MeetingMetadata) : meetingSaved (save_one_meeting db stats m).1 m := by
  rw [meetingSaved, get_meeting_save_one, if_pos rfl]
  cases hg : get_meeting db m.clip_id with
  | some existing =>
    dsimp only
    by_cases hc : strTruthy m.video_url = true ∧ ¬ strTruthy existing.video_url = true
    · rw [if_pos hc]
      refine ⟨_, rfl, fun _ => ?_⟩
      obtain ⟨hc1, _⟩ := hc
      cases hu : m.video_url with
      | none => rw [hu] at hc1; exact absurd hc1 (by simp [strTruthy])
      | some u =>
        rw [hu] at hc1
        simp only [strTruthy, ne_eq, decide_eq_true_eq] at hc1
        simp [strTruthy, hc1]
    · rw [if_neg hc]
      refine ⟨existing, rfl, fun ht => ?_⟩
      by_contra hex
      exact hc ⟨ht, fun hcontra => hex hcontra⟩
  | none => exact ⟨_, rfl, fun ht => ht⟩

theorem save_fold_preserves (ms : List MeetingMetadata) (db : Ledger)
    (stats : DiscoveryStats) (m : MeetingMetadata) (h : meetingSaved db m) :
    meetingSaved ((ms.foldl (fun acc x => save_one_meeting acc.1 acc.2 x)
      (db, stats)).1) m := by
  induction ms generalizing db stats with
  | nil => exact h
  | cons m0 rest ih =>
    simp only [List.foldl_cons]
    exact ih _ _ (save_one_meeting_preserves db stats m0 m h)

theorem save_fold_saturates (ms : List MeetingMetadata) (m : MeetingMetadata) :
    ∀ (db : Ledger) (stats : DiscoveryStats), m ∈ ms →
      meetingSaved ((ms.foldl (fun acc x => save_one_meeting acc.1 acc.2 x)
        (db, stats)).1) m := by
  induction ms with
  | nil => intro db stats hm; cases hm
  | cons m0 rest ih =>
    intro db stats hm
    simp only [List.foldl_cons]
    rcases List.mem_cons.mp hm with heq | hmem
    · subst heq
      exact save_fold_preserves rest _ _ m (save_one_meeting_establishes db stats m)
    · exact ih _ _ hmem

theorem save_fold_noop (ms : List MeetingMetadata) (db : Ledger)
    (stats : DiscoveryStats) (h : ∀ m ∈ ms, meetingSaved db m) :
    (ms.foldl (fun acc x => save_one_meeting acc.1 acc.2 x) (db, stats)).1 = db := by
  induction ms generalizing stats with
  | nil => rfl
  | cons m0 rest ih =>
    simp only [List.foldl_cons]
    have hs := save_one_meeting_noop db stats m0 (h m0 (List.mem_cons_self m0 rest))
    show (rest.foldl (fun acc x => save_one_meeting acc.1 acc.2 x)
        ((save_one_meeting db stats m0).1, (save_one_meeting db stats m0).2)).1 = db
    rw [hs]
    exact ih _ (fun m hm => h m (List.mem_cons_of_mem m0 hm))

/-- C6: insert_meeting is first-writer-wins (an existing clip_id leaves
the ledger unchanged and returns False); an existing meeting row, over one
discovery save step, is either untouched or has exactly a previously-falsy
video URL replaced by the metadata URL; and re-running
save_discovered_meetings over the same discovered set leaves the ledger
state completely unchanged. -/
theorem c6_discovery_idempotent (db : Ledger) (ms : List MeetingMetadata)
    (stats : DiscoveryStats) (m : MeetingMetadata) (id : ℕ) (row : MeetingRow)
    (c : ℕ) (t : String) (md mt vu : Option String) (ds : Option ℤ) :
    ((get_meeting db c).isSome → insert_meeting db c t md mt vu ds = (false, db)) ∧
    (get_meeting db id = some row →
      get_meeting (save_one_meeting db stats m).1 id = some row ∨
      (id = m.clip_id ∧ strTruthy row.video_url = false ∧ strTruthy m.video_url = true ∧
        get_meeting (save_one_meeting db stats m).1 id =
          some { row with video_url := some (m.video_url.getD "") })) ∧
    (save_discovered_meetings (save_discovered_meetings db ms).1 ms).1 =
      (save_discovered_meetings db ms).1 := by
  refine ⟨?_, ?_, ?_⟩
  · intro h
    unfold insert_meeting
    rw [if_pos]
    unfold get_meeting at h
    simpa using h
  · intro hrow
    rw [get_meeting_save_one]
    by_cases he : id = m.clip_id
    · rw [if_pos he, ← he, hrow]
      dsimp only
      by_cases hc : strTruthy m.video_url = true ∧ ¬ strTruthy row.video_url = true
      · right
        refine ⟨rfl, ?_, hc.1, by rw [if_pos hc]⟩
        cases hb : strTruthy row.video_url with
        | false => rfl
        | true => exact absurd hb hc.2
      · left
        rw [if_neg hc]
    · left
      rw [if_neg he]
      exact hrow
  · unfold save_discovered_meetings
    exact save_fold_noop ms _ _ (fun x hx => save_fold_saturates ms x db ⟨0, 0, 0⟩ hx)

/-- Witness ledger for c6_discovery_idempotent: one meeting with no URL. -/
def c6Row : MeetingRow := ⟨"m1", none, none, none, none, "discovered"⟩

def c6Db : Ledger := ⟨[(1, c6Row)], [], []⟩

def c6Meta : MeetingMetadata := ⟨1, "m1", none, none, some "http-url", none, []⟩

/-- Witness for c6_discovery_idempotent at a concrete one-row ledger. -/
theorem c6_discovery_idempotent_witness :
    insert_meeting c6Db 1 "x" none none none none = (false, c6Db) ∧
    (get_meeting (save_one_meeting c6Db ⟨0, 0, 0⟩ c6Meta).1 1 = some c6Row ∨
      ((1 : ℕ) = c6Meta.clip_id ∧ strTruthy c6Row.video_url = false ∧
        strTruthy c6Meta.video_url = true ∧
        get_meeting (save_one_meeting c6Db ⟨0, 0, 0⟩ c6Meta).1 1 =
          some { c6Row with video_url := some (c6Meta.video_url.getD "") })) ∧
    (save_discovered_meetings (save_discovered_meetings c6Db [c6Meta]).1 [c6Meta]).1 =
      (save_discovered_meetings c6Db [c6Meta]).1 :=
  ⟨(c6_discovery_idempotent c6Db [c6Meta] ⟨0, 0, 0⟩ c6Meta 1 c6Row 1 "x"
      none none none none).1 (by decide),
   (c6_discovery_idempotent c6Db [c6Meta] ⟨0, 0, 0⟩ c6Meta 1 c6Row 1 "x"
      none none none none).2.1 (by decide),
   (c6_discovery_idempotent c6Db [c6Meta] ⟨0, 0, 0⟩ c6Meta 1 c6Row 1 "x"
      none none none none).2.2⟩

/-! ## Ordering model for SQL ORDER BY (claim C7)

SQLite compares TEXT by bytes with NULL below every string; dates are
stored as ISO strings so byte order is date order.  The query result is
modelled by an insertion sort with the corresponding comparator. -/

def charListLe : List Char → List Char → Bool
  | [], _ => true
  | _ :: _, [] => false
  | a :: as, b :: bs => if a = b then charListLe as bs else decide (a.toNat < b.toNat)

/-- SQLite ordering on the nullable meeting_date column: NULL first, then
byte order. -/
def dateLe : Option String → Option String → Bool
  | none, _ => true
  | some _, none => false
  | some a, some b => charListLe a.data b.data

def dateGe (a b : Option String) : Bool := dateLe b a

theorem charListLe_refl (a : List Char) : charListLe a a = true := by
  induction a with
  | nil => rfl
  | cons c cs ih => simp [charListLe, ih]

theorem char_eq_of_toNat_eq {x y : Char} (h : x.toNat = y.toNat) : x = y :=
  Char.eq_of_val_eq (UInt32.toNat.inj h)

theorem charListLe_total (a b : List Char) :
    charListLe a b = true ∨ charListLe b a = true := by
  induction a generalizing b with
  | nil => left; rfl
  | cons x xs ih =>
    cases b with
    | nil => right; rfl
    | cons y ys =>
      by_cases hxy : x = y
      · subst hxy
        rcases ih ys with h | h
        · left; simpa [charListLe] using h
        · right; simpa [charListLe] using h
      · rcases Nat.lt_or_ge x.toNat y.toNat with h | h
        · left; simp [charListLe, hxy, h]
        · have hne : y.toNat ≠ x.toNat := by
            intro he
            exact hxy (char_eq_of_toNat_eq he.symm)
          have h2 : y.toNat < x.toNat := lt_of_le_of_ne h hne
          right
          simp [charListLe, Ne.symm hxy, h2]

theorem charListLe_trans {a b c : List Char} (h1 : charListLe a b = true)
    (h2 : charListLe b c = true) : charListLe a c = true := by
  induction a generalizing b c with
  | nil => rfl
  | cons x xs ih =>
    cases b with
    | nil => simp [charListLe] at h1
    | cons y ys =>
      cases c with
      | nil => simp [charListLe] at h2
      | cons z zs =>
        by_cases hxy : x = y <;> by_cases hyz : y = z
        · subst hxy; subst hyz
          simp only [charListLe, if_pos rfl] at h1 h2 ⊢
          exact ih h1 h2
        · subst hxy
          simp [charListLe, hyz] at h2 ⊢
          exact h2
        · subst hyz
          simp [charListLe, hxy] at h1 ⊢
          exact h1
        · simp only [charListLe, if_neg hxy, decide_eq_true_eq] at h1
          simp only [charListLe, if_neg hyz, decide_eq_true_eq] at h2
          have hlt : x.toNat < z.toNat := lt_trans h1 h2
          have hxz : x ≠ z := by
            intro he
            subst he
            exact lt_irrefl _ hlt
          simp [charListLe, hxz, hlt]

theorem dateLe_refl (a : Option String) : dateLe a a = true := by
  cases a with
  | none => rfl
  | some s => simpa [dateLe] using charListLe_refl s.data

theorem dateLe_total (a b : Option String) : dateLe a b = true ∨ dateLe b a = true := by
  cases a <;> cases b <;> simp [dateLe]
  exact charListLe_total _ _

theorem dateLe_trans {a b c : Option String} (h1 : dateLe a b = true)
    (h2 : dateLe b c = true) : dateLe a c = true := by
  cases a <;> cases b <;> cases c <;> simp [dateLe] at h1 h2 ⊢
  exact charListLe_trans h1 h2

/-! ## Generic insertion sort modelling ORDER BY -/

def insertSorted {α : Type} (le : α → α → Bool) (x : α) : List α → List α
  | [] => [x]
  | y :: ys => if le x y then x :: y :: ys else y :: insertSorted le x ys

def sortBy {α : Type} (le : α → α → Bool) : List α → List α
  | [] => []
  | x :: xs => insertSorted le x (sortBy le xs)

theorem insertSorted_perm {α : Type} (le : α → α → Bool) (x : α) (l : List α) :
    List.Perm (insertSorted le x l) (x :: l) := by
  induction l with
  | nil => exact List.Perm.refl _
  | cons y ys ih =>
    unfold insertSorted
    split
    · exact List.Perm.refl _
    · exact List.Perm.trans (List.Perm.cons y ih) (List.Perm.swap x y ys)

theorem sortBy_perm {α : Type} (le : α → α → Bool) (l : List α) :
    List.Perm (sortBy le l) l := by
  induction l with
  | nil => exact List.Perm.refl _
  | cons x xs ih =>
    exact List.Perm.trans (insertSorted_perm le x (sortBy le xs)) (List.Perm.cons x ih)

theorem insertSorted_pairwise {α : Type} (le : α → α → Bool)
    (htot : ∀ a b, le a b = true ∨ le b a = true)
    (htrans : ∀ {a b c}, le a b = true → le b c = true → le a c = true)
    (x : α) (l : List α) (hl : List.Pairwise (fun a b => le a b = true) l) :
    List.Pairwise (fun a b => le a b = true) (insertSorted le x l) := by
  induction l with
  | nil => simp [insertSorted]
  | cons y ys ih =>
    unfold insertSorted
    rcases List.pairwise_cons.mp hl with ⟨hy, hys⟩
    split
    · rename_i hxy
      refine List.pairwise_cons.mpr ⟨?_, hl⟩
      intro z hz
      rcases List.mem_cons.mp hz with rfl | hz2
      · exact hxy
      · exact htrans hxy (hy z hz2)
    · rename_i hxy
      have hyx : le y x = true := by
        rcases htot x y with h | h
        · exact absurd h hxy
        · exact h
      refine List.pairwise_cons.mpr ⟨?_, ih hys⟩
      intro z hz
      have hz2 := (insertSorted_perm le x ys).mem_iff.mp hz
      rcases List.mem_cons.mp hz2 with rfl | hz3
      · exact hyx
      · exact hy z hz3

theorem sortBy_pairwise {α : Type} (le : α → α → Bool)
    (htot : ∀ a b, le a b = true ∨ le b a = true)
    (htrans : ∀ {a b c}, le a b = true → le b c = true → le a c = true)
    (l : List α) : List.Pairwise (fun a b => le a b = true) (sortBy le l) := by
  induction l with
  | nil => exact List.Pairwise.nil
  | cons x xs ih => exact insertSorted_pairwise le htot htrans x (sortBy le xs) ih

/-! ## ListByStatus and NextPending (database.py lines 179-206) -/

/-- Comparator of ORDER BY meeting_date DESC. -/
def rowDateDesc (a b : ℕ × MeetingRow) : Bool := dateGe a.2.meeting_date b.2.meeting_date

/-- Comparator of ORDER BY meeting_date ASC. -/
def rowDateAsc (a b : ℕ × MeetingRow) : Bool := dateLe a.2.meeting_date b.2.meeting_date

/-- Model of database.get_meetings_by_status (database.py lines 179-186):
WHERE status = ? ORDER BY meeting_date DESC, i.e. newest first. -/
def get_meetings_by_status (db : Ledger) (status : String) : List (ℕ × MeetingRow) :=
  sortBy rowDateDesc (db.meetings.filter (fun p => p.2.status == status))

/-- Stage-to-input-status map of database.get_next_pending. -/
def status_map : String → Option String
  | "download" => some "discovered"
  | "transcribe" => some "downloaded"
  | "validate" => some "transcribed"
  | "analyze" => some "validated"
  | _ => none

/-- Model of database.get_next_pending (database.py lines 189-206):
WHERE status = ? ORDER BY meeting_date ASC LIMIT 1, i.e. oldest first. -/
def get_next_pending (db : Ledger) (stage : String) : Option (ℕ × MeetingRow) :=
  match status_map stage with
  | none => none
  | some status =>
    (sortBy rowDateAsc (db.meetings.filter (fun p => p.2.status == status))).head?

/-- Model of the batch selection in downloader.download_batch
(downloader.py line 171): get_meetings_by_status("discovered")[:batch_size].
The validator and analyzer batch workers use the same
get_meetings_by_status selection with their own statuses. -/
def download_batch_selection (db : Ledger) (batch_size : ℕ) : List (ℕ × MeetingRow) :=
  (get_meetings_by_status db "discovered").take batch_size

/-! ## Claim C7 : order in which batch workers visit meetings -/

theorem rowDateDesc_total (a b : ℕ × MeetingRow) :
    rowDateDesc a b = true ∨ rowDateDesc b a = true := by
  unfold rowDateDesc dateGe
  rcases dateLe_total a.2.meeting_date b.2.meeting_date with h | h
  · right; exact h
  · left; exact h

theorem rowDateDesc_trans {a b c : ℕ × MeetingRow} (h1 : rowDateDesc a b = true)
    (h2 : rowDateDesc b c = true) : rowDateDesc a c = true :=
  dateLe_trans h2 h1

theorem rowDateAsc_total (a b : ℕ × MeetingRow) :
    rowDateAsc a b = true ∨ rowDateAsc b a = true :=
  dateLe_total a.2.meeting_date b.2.meeting_date

theorem rowDateAsc_trans {a b c : ℕ × MeetingRow} (h1 : rowDateAsc a b = true)
    (h2 : rowDateAsc b c = true) : rowDateAsc a c = true :=
  dateLe_trans h1 h2

def c7RowOld : MeetingRow :=
  ⟨"1/1/24 City Council", some "2024-01-01", some "City Council", some "u1", none,
    "discovered"⟩

def c7RowNew : MeetingRow :=
  ⟨"6/1/24 City Council", some "2024-06-01", some "City Council", some "u2", none,
    "discovered"⟩

def c7Db : Ledger := ⟨[(1, c7RowOld), (2, c7RowNew)], [], []⟩

/-- C7 counterexample: with two discovered meetings dated January and June
and batch size 1, the downloader's batch selection is the June (newest)
meeting, while the strictly older January meeting with the same status is
left out — the batch is not the set of oldest-by-date meetings, because
get_meetings_by_status orders by meeting_date DESC. -/
theorem c7_counterexample :
    download_batch_selection c7Db 1 = [(2, c7RowNew)] ∧
    (1, c7RowOld) ∈ get_meetings_by_status c7Db "discovered" ∧
    dateLe c7RowOld.meeting_date c7RowNew.meeting_date = true ∧
    c7RowOld.meeting_date ≠ c7RowNew.meeting_date ∧
    (1, c7RowOld) ∉ download_batch_selection c7Db 1 := by decide

/-- C7 (amended): a stage's batch worker visits meetings in
date-DESCENDING order: get_meetings_by_status returns a permutation of the
meetings holding the status, sorted newest first; the batch selection is a
newest-first prefix (every selected meeting's date is at least every
unselected one's); only get_next_pending returns the oldest-by-date
meeting of a stage's input status. -/
theorem c7_batch_order_amended (db : Ledger) (status : String) (n : ℕ) :
    List.Perm (get_meetings_by_status db status)
      (db.meetings.filter (fun p => p.2.status == status)) ∧
    List.Pairwise (fun a b => dateGe a.2.meeting_date b.2.meeting_date = true)
      (get_meetings_by_status db status) ∧
    (∀ x, x ∈ download_batch_selection db n →
      ∀ y, y ∈ get_meetings_by_status db "discovered" →
        y ∉ download_batch_selection db n →
          dateGe x.2.meeting_date y.2.meeting_date = true) ∧
    (∀ stage st x, status_map stage = some st →
      get_next_pending db stage = some x →
      x ∈ db.meetings.filter (fun p => p.2.status == st) ∧
      ∀ y ∈ db.meetings.filter (fun p => p.2.status == st),
        dateLe x.2.meeting_date y.2.meeting_date = true) := by
  refine ⟨sortBy_perm _ _, sortBy_pairwise _ rowDateDesc_total rowDateDesc_trans _, ?_, ?_⟩
  · intro x hx y hy hyn
    have hsorted : List.Pairwise (fun a b => rowDateDesc a b = true)
        (get_meetings_by_status db "discovered") :=
      sortBy_pairwise _ rowDateDesc_total rowDateDesc_trans _
    have hsplit := List.take_append_drop n (get_meetings_by_status db "discovered")
    have hp : List.Pairwise (fun a b => rowDateDesc a b = true)
        ((get_meetings_by_status db "discovered").take n ++
          (get_meetings_by_status db "discovered").drop n) := by
      rw [hsplit]; exact hsorted
    rcases List.pairwise_append.mp hp with ⟨_, _, hcross⟩
    have hy2 : y ∈ (get_meetings_by_status db "discovered").take n ++
        (get_meetings_by_status db "discovered").drop n := by
      rw [hsplit]; exact hy
    rcases List.mem_append.mp hy2 with hyt | hyd
    · exact absurd hyt hyn
    · exact hcross x hx y hyd
  · intro stage st x hst hx
    unfold get_next_pending at hx
    rw [hst] at hx
    dsimp only at hx
    cases hsort : sortBy rowDateAsc (db.meetings.filter (fun p => p.2.status == st)) with
    | nil => rw [hsort] at hx; exact Option.noConfusion hx
    | cons a rest =>
      rw [hsort] at hx
      simp only [List.head?, Option.some.injEq] at hx
      subst hx
      have hperm := sortBy_perm rowDateAsc (db.meetings.filter (fun p => p.2.status == st))
      constructor
      · exact hperm.mem_iff.mp (by rw [hsort]; exact List.mem_cons_self a rest)
      · intro y hy
        have hpair := sortBy_pairwise rowDateAsc rowDateAsc_total rowDateAsc_trans
          (db.meetings.filter (fun p => p.2.status == st))
        rw [hsort] at hpair
        rcases List.pairwise_cons.mp hpair with ⟨hhead, _⟩
        have hy2 : y ∈ a :: rest := by
          rw [← hsort]
          exact hperm.symm.mem_iff.mp hy
        rcases List.mem_cons.mp hy2 with rfl | hy3
        · exact dateLe_refl _
        · exact hhead y hy3

/-- Witness for c7_batch_order_amended at the two-meeting ledger: the batch
prefix member (June) is date-≥ the unselected January meeting, and
get_next_pending for the download stage picks the January (oldest)
meeting. -/
theorem c7_batch_order_amended_witness :
    dateGe c7RowNew.meeting_date c7RowOld.meeting_date = true ∧
    ((1, c7RowOld) ∈ c7Db.meetings.filter (fun p => p.2.status == "discovered") ∧
      ∀ y ∈ c7Db.meetings.filter (fun p => p.2.status == "discovered"),
        dateLe c7RowOld.meeting_date y.2.meeting_date = true) :=
  ⟨(c7_batch_order_amended c7Db "discovered" 1).2.2.1 (2, c7RowNew) (by decide)
      (1, c7RowOld) (by decide) (by decide),
   (c7_batch_order_amended c7Db "discovered" 1).2.2.2 "download" "discovered"
      (1, c7RowOld) rfl (by decide)⟩

/-! ## Downloader model (downloader.py)

The external ffmpeg/ffprobe processes are oracles: an FfmpegOutcome
describes one ffmpeg run (return code, resulting file, timeout), and the
two possible ffprobe results are passed as Option AudioInfo.  The worker is
modelled as a function returning its success flag and the ordered trace of
its observable actions (status writes, probes, ffmpeg run, log lines), so
that before/after claims about the status flip are statable. -/

structure AudioInfo where
  duration_seconds : ℤ
  size_bytes : ℤ
deriving DecidableEq, Repr

structure FfmpegOutcome where
  timed_out : Bool
  returncode : ℤ
  output_size : Option ℤ
deriving DecidableEq, Repr

inductive DlAction where
  | probe (result : Option AudioInfo)
  | setStatus (status : String)
  | ffmpegRun
  | logEvent (stage status : String)
deriving DecidableEq, Repr

/-- Model of downloader.download_audio (downloader.py lines 21-74): run
ffmpeg; success means return code 0 and an existing, non-empty output file.
The output_size oracle is none when the file does not exist afterwards. -/
def download_audio (ff : FfmpegOutcome) : Bool × List DlAction :=
  if ff.timed_out then
    (false, [.logEvent "download" "started", .ffmpegRun, .logEvent "download" "failed"])
  else if ff.returncode = 0 then
    match ff.output_size with
    | some sz =>
      if 0 < sz then
        (true, [.logEvent "download" "started", .ffmpegRun, .logEvent "download" "completed"])
      else
        (false, [.logEvent "download" "started", .ffmpegRun, .logEvent "download" "failed"])
    | none =>
      (false, [.logEvent "download" "started", .ffmpegRun, .logEvent "download" "failed"])
  else
    (false, [.logEvent "download" "started", .ffmpegRun, .logEvent "download" "failed"])

/-- Truthiness of the resume check on a probe result:
`info and info["duration_seconds"] > 0` (downloader.py line 136). -/
def probeOkDuration : Option AudioInfo → Bool
  | some info => 0 < info.duration_seconds
  | none => false

/-- Model of downloader.download_meeting (downloader.py lines 113-159).
Inputs: the meeting row (none when absent), whether the output file already
exists, the ffprobe result for the pre-existing file, the ffmpeg outcome,
and the ffprobe result for the freshly downloaded file.  Returns the
success flag and the ordered action trace. -/
def download_meeting (meeting : Option MeetingRow) (file_exists : Bool)
    (probe_existing probe_after : Option AudioInfo) (ff : FfmpegOutcome) :
    Bool × List DlAction :=
  match meeting with
  | none => (false, [])
  | some m =>
    if ¬ strTruthy m.video_url then
      (false, [.setStatus "failed", .logEvent "download" "failed"])
    else
      let resumeProbe : List DlAction := if file_exists then [.probe probe_existing] else []
      if file_exists ∧ probeOkDuration probe_existing then
        (true, resumeProbe ++ [.setStatus "downloaded"])
      else
        let dl := download_audio ff
        if dl.1 then
          (true, resumeProbe ++ [.setStatus "downloading"] ++ dl.2 ++
            [.setStatus "downloaded", .probe probe_after])
        else
          (false, resumeProbe ++ [.setStatus "downloading"] ++ dl.2 ++
            [.setStatus "failed"])

/-- A probe action confirming positive duration and non-zero size, as the
claim describes the gate for the downloaded status. -/
def probeConfirms : DlAction → Bool
  | .probe (some info) => 0 < info.duration_seconds ∧ info.size_bytes ≠ 0
  | _ => false

/-- Decides whether a confirming probe occurs strictly before the first
write of the downloaded status in a trace (vacuously true when the status
is never written). -/
def confirmedBeforeDownloaded : List DlAction → Bool
  | [] => true
  | a :: rest =>
    if a = .setStatus "downloaded" then false
    else if probeConfirms a then true
    else confirmedBeforeDownloaded rest

/-! ## Claim C4 : gating of the downloaded status flip -/

/-- A probe action whose result passes the resume duration check. -/
def probeDurationOk : DlAction → Bool
  | .probe r => probeOkDuration r
  | _ => false

/-- Decides whether an action passing the check occurs strictly before the
first write of the downloaded status (false when no such action occurs). -/
def beforeDownloaded (check : DlAction → Bool) : List DlAction → Bool
  | [] => false
  | a :: rest =>
    if a = .setStatus "downloaded" then false
    else if check a then true
    else beforeDownloaded check rest

def c4Meeting : MeetingRow :=
  ⟨"m", some "2024-01-01", some "City Council", some "stream-url", none, "discovered"⟩

/-- C4 counterexample: fresh download path, ffmpeg succeeds with a
non-empty file, but the post-download ffprobe fails (returns none).  The
worker still flips status to downloaded, and no probe confirming positive
duration and non-zero size occurs anywhere before the status write — the
probe runs after the flip and its result is not consulted. -/
theorem c4_counterexample :
    (download_meeting (some c4Meeting) false none none ⟨false, 0, some 5⟩).1 = true ∧
    DlAction.setStatus "downloaded" ∈
      (download_meeting (some c4Meeting) false none none ⟨false, 0, some 5⟩).2 ∧
    confirmedBeforeDownloaded
      (download_meeting (some c4Meeting) false none none ⟨false, 0, some 5⟩).2 = false := by
  decide

theorem downloaded_not_in_download_audio (ff : FfmpegOutcome) :
    DlAction.setStatus "downloaded" ∉ (download_audio ff).2 := by
  unfold download_audio
  split
  · simp
  · split
    · split
      · split <;> simp
      · simp
    · simp

/-- C4 (amended): the downloaded status is written only when either the
resume path found an existing file whose probe reports positive duration
(and that probe precedes the status write), or the fresh download path saw
ffmpeg exit 0 with an existing non-empty output file; the ffprobe run
after a fresh download happens after the status write and does not gate
it. -/
theorem c4_download_gate_amended (meeting : Option MeetingRow) (file_exists : Bool)
    (probe_existing probe_after : Option AudioInfo) (ff : FfmpegOutcome)
    (h : DlAction.setStatus "downloaded" ∈
      (download_meeting meeting file_exists probe_existing probe_after ff).2) :
    (download_meeting meeting file_exists probe_existing probe_after ff).1 = true ∧
    ((file_exists = true ∧ probeOkDuration probe_existing = true ∧
        beforeDownloaded probeDurationOk
          (download_meeting meeting file_exists probe_existing probe_after ff).2 = true) ∨
      (ff.timed_out = false ∧ ff.returncode = 0 ∧
        ∃ sz, ff.output_size = some sz ∧ 0 < sz)) := by
  cases meeting with
  | none => simp [download_meeting] at h
  | some m =>
    by_cases hurl : strTruthy m.video_url = true
    · by_cases hres : file_exists = true ∧ probeOkDuration probe_existing = true
      · obtain ⟨hfe, hpd⟩ := hres
        subst hfe
        have htr : download_meeting (some m) true probe_existing probe_after ff =
            (true, [DlAction.probe probe_existing, DlAction.setStatus "downloaded"]) := by
          unfold download_meeting
          dsimp only
          rw [if_neg (not_not_intro hurl), if_pos ⟨rfl, hpd⟩]
          simp
        rw [htr]
        refine ⟨rfl, Or.inl ⟨rfl, hpd, ?_⟩⟩
        unfold beforeDownloaded
        rw [if_neg (by simp), if_pos (by simpa [probeDurationOk] using hpd)]
      · cases hdl : (download_audio ff).1 with
        | true =>
          have htr : download_meeting (some m) file_exists probe_existing probe_after ff =
              (true, (if file_exists = true then [DlAction.probe probe_existing] else []) ++
                [DlAction.setStatus "downloading"] ++ (download_audio ff).2 ++
                [DlAction.setStatus "downloaded", DlAction.probe probe_after]) := by
            unfold download_meeting
            dsimp only
            rw [if_neg (not_not_intro hurl), if_neg hres, hdl]
            simp
          rw [htr]
          refine ⟨rfl, Or.inr ?_⟩
          unfold download_audio at hdl
          by_cases ht : ff.timed_out = true
          · rw [if_pos ht] at hdl; simp at hdl
          · rw [if_neg ht] at hdl
            by_cases hrc : ff.returncode = 0
            · rw [if_pos hrc] at hdl
              cases hsz : ff.output_size with
              | none => rw [hsz] at hdl; simp at hdl
              | some sz =>
                rw [hsz] at hdl
                dsimp only at hdl
                by_cases hpos : 0 < sz
                · exact ⟨by simpa using ht, hrc, sz, rfl, hpos⟩
                · rw [if_neg hpos] at hdl; simp at hdl
            · rw [if_neg hrc] at hdl; simp at hdl
        | false =>
          have htr : download_meeting (some m) file_exists probe_existing probe_after ff =
              (false, (if file_exists = true then [DlAction.probe probe_existing] else []) ++
                [DlAction.setStatus "downloading"] ++ (download_audio ff).2 ++
                [DlAction.setStatus "failed"]) := by
            unfold download_meeting
            dsimp only
            rw [if_neg (not_not_intro hurl), if_neg hres, hdl]
            simp
          rw [htr] at h
          exfalso
          rcases List.mem_append.mp h with h2 | h2
          · rcases List.mem_append.mp h2 with h3 | h3
            · rcases List.mem_append.mp h3 with h4 | h4
              · revert h4
                split <;> simp
              · simp at h4
            · exact downloaded_not_in_download_audio ff h3
          · simp at h2
    · have htr : download_meeting (some m) file_exists probe_existing probe_after ff =
          (false, [DlAction.setStatus "failed", DlAction.logEvent "download" "failed"]) := by
        unfold download_meeting
        dsimp only
        rw [if_pos hurl]
      rw [htr] at h
      simp at h

/-- Witness for c4_download_gate_amended on both paths: a resume with a
good probe, and a fresh ffmpeg success. -/
theorem c4_download_gate_amended_witness :
    ((download_meeting (some c4Meeting) true (some ⟨100, 999⟩) none
        ⟨false, 1, none⟩).1 = true ∧
      ((true = true ∧ probeOkDuration (some (⟨100, 999⟩ : AudioInfo)) = true ∧
          beforeDownloaded probeDurationOk
            (download_meeting (some c4Meeting) true (some ⟨100, 999⟩) none
              ⟨false, 1, none⟩).2 = true) ∨
        ((false : Bool) = false ∧ (1 : ℤ) = 0 ∧
          ∃ sz, (none : Option ℤ) = some sz ∧ 0 < sz))) ∧
    ((download_meeting (some c4Meeting) false none none ⟨false, 0, some 5⟩).1 = true ∧
      ((false = true ∧ probeOkDuration none = true ∧
          beforeDownloaded probeDurationOk
            (download_meeting (some c4Meeting) false none none
              ⟨false, 0, some 5⟩).2 = true) ∨
        ((false : Bool) = false ∧ (0 : ℤ) = 0 ∧
          ∃ sz, (some 5 : Option ℤ) = some sz ∧ 0 < sz))) :=
  ⟨c4_download_gate_amended (some c4Meeting) true (some ⟨100, 999⟩) none
      ⟨false, 1, none⟩ (by decide),
   c4_download_gate_amended (some c4Meeting) false none none
      ⟨false, 0, some 5⟩ (by decide)⟩

/-! ## Validator tier selection (validator.py lines 297-372)

The tier-1 LLM call (tier1_validate_segment: an ollama request plus
parse_json_response with mid-score fallback) is an external capability;
its outcome per segment position is the oracle parameter tier1. -/

structure Tier1Result where
  score : ℤ
  needs_deep_review : Bool
deriving DecidableEq, Repr

/-- config.VALIDATION_COHERENCE_THRESHOLD default 80. -/
def VALIDATION_COHERENCE_THRESHOLD : ℤ := 80

/-- The flagging condition of validator.py line 324. -/
def tier1Flagged (r : Tier1Result) : Bool :=
  r.score < VALIDATION_COHERENCE_THRESHOLD ∨ r.needs_deep_review

/-- One entry of the segments_needing_deep list. -/
structure DeepEntry where
  index : ℕ
  segment : TSegment
  agenda_title : Option String
  divergent : Option DivergentSegment
deriving DecidableEq, Repr

/-- Agenda-title scan of the tier-1 loop (validator.py lines 312-318): the
last agenda item whose window contains the segment start wins (the loop
has no break). -/
def agendaTitleFor (agenda_items : List AgendaItemRow) (segment_start : ℚ) :
    Option String :=
  agenda_items.foldl (fun acc item =>
    let item_start := item.start_seconds.getD 0
    if item_start ≤ segment_start then
      match item.end_seconds with
      | none => item.title
      | some item_end => if segment_start ≤ item_end then item.title else acc
    else acc) none

/-- The tier-1 loop of validate_meeting (lines 307-329) over the
enumerated first-50 segment prefix: collects per-index tier-1 results and
the entries whose score is below the threshold or whose
needs_deep_review flag is set. -/
def tier1_loop (tier1 : ℕ → Tier1Result) (agenda_items : List AgendaItemRow) :
    List (ℕ × TSegment) → List (ℕ × Tier1Result) × List DeepEntry
  | [] => ([], [])
  | (i, segment) :: rest =>
    let result := tier1 i
    let title := agendaTitleFor agenda_items (segment.start.getD 0)
    let r := tier1_loop tier1 agenda_items rest
    if tier1Flagged result then
      ((i, result) :: r.1, ⟨i, segment, title, none⟩ :: r.2)
    else ((i, result) :: r.1, r.2)

/-- The divergent-append loop (lines 331-339): each divergent segment is
appended unless its index already occurs in the accumulated list; the
referenced primary segment defaults to the empty dict when out of range. -/
def add_divergent (primary_segments : List TSegment) :
    List DeepEntry → List DivergentSegment → List DeepEntry
  | acc, [] => acc
  | acc, d :: rest =>
    if acc.any (fun s => s.index == d.segment_index) then
      add_divergent primary_segments acc rest
    else
      add_divergent primary_segments
        (acc ++ [⟨d.segment_index,
          (primary_segments.get? d.segment_index).getD ⟨none, none, ""⟩,
          none, some d⟩]) rest

structure ValidationSelection where
  tier1_scores : List (ℕ × Tier1Result)
  deep_entries : List DeepEntry
  tier2_entries : List DeepEntry
deriving DecidableEq, Repr

/-- Model of the selection logic of validator.validate_meeting (lines
286-346): the WER comparison produces the divergent list, tier-1 visits
the first 50 primary segments, the flagged and divergent entries are
merged without index duplicates, and tier-2 visits the first 20 of the
merged list. -/
def validate_meeting_selection (tier1 : ℕ → Tier1Result) (primary : Transcript)
    (secondary : Option Transcript) (agenda_items : List AgendaItemRow) :
    ValidationSelection :=
  let divergent_segments := (validate_meeting_wer primary secondary).2
  let r := tier1_loop tier1 agenda_items (primary.segments.take 50).enum
  let deepAll := add_divergent primary.segments r.2 divergent_segments
  ⟨r.1, deepAll, deepAll.take 20⟩

/-! ## Claim C3 : which segments tier-1 and tier-2 visit -/

theorem filter_fst_comm {α : Type} (ps : List (ℕ × α)) (q : ℕ → Bool) :
    (ps.filter (fun p => q p.1)).map Prod.fst = (ps.map Prod.fst).filter q := by
  induction ps with
  | nil => rfl
  | cons p ps ih =>
    by_cases h : q p.1 = true
    · simp only [List.filter_cons, List.map_cons, h, if_true, ih]
    · simp only [List.filter_cons, List.map_cons, h, Bool.false_eq_true, if_false, ih]

theorem tier1_loop_spec (tier1 : ℕ → Tier1Result) (agenda_items : List AgendaItemRow)
    (l : List (ℕ × TSegment)) :
    tier1_loop tier1 agenda_items l =
      (l.map (fun p => (p.1, tier1 p.1)),
       (l.filter (fun p => tier1Flagged (tier1 p.1))).map
         (fun p => ⟨p.1, p.2, agendaTitleFor agenda_items (p.2.start.getD 0), none⟩)) := by
  induction l with
  | nil => rfl
  | cons p rest ih =>
    obtain ⟨i, seg⟩ := p
    unfold tier1_loop
    rw [ih]
    by_cases h : tier1Flagged (tier1 i) = true
    · simp [h, List.filter_cons]
    · simp [h, List.filter_cons]

theorem add_divergent_mem (ps : List TSegment) (ds : List DivergentSegment) :
    ∀ (acc : List DeepEntry) (e : DeepEntry), e ∈ acc →
      e ∈ add_divergent ps acc ds := by
  induction ds with
  | nil => intro acc e he; exact he
  | cons d rest ih =>
    intro acc e he
    unfold add_divergent
    split
    · exact ih acc e he
    · exact ih _ e (List.mem_append.mpr (Or.inl he))

theorem add_divergent_index_mem (ps : List TSegment) (ds : List DivergentSegment) :
    ∀ (acc : List DeepEntry) (e : DeepEntry), e ∈ add_divergent ps acc ds →
      e ∈ acc ∨ ∃ d ∈ ds, e.index = d.segment_index := by
  induction ds with
  | nil => intro acc e he; exact Or.inl he
  | cons d rest ih =>
    intro acc e he
    unfold add_divergent at he
    split at he
    · rcases ih acc e he with h | ⟨d2, hd2, hi⟩
      · exact Or.inl h
      · exact Or.inr ⟨d2, List.mem_cons_of_mem d hd2, hi⟩
    · rcases ih _ e he with h | ⟨d2, hd2, hi⟩
      · rcases List.mem_append.mp h with h2 | h2
        · exact Or.inl h2
        · rw [List.mem_singleton] at h2
          subst h2
          exact Or.inr ⟨d, List.mem_cons_self d rest, rfl⟩
      · exact Or.inr ⟨d2, List.mem_cons_of_mem d hd2, hi⟩

theorem add_divergent_nodup (ps : List TSegment) (ds : List DivergentSegment) :
    ∀ (acc : List DeepEntry), ((acc.map (fun e => e.index)).Nodup) →
      (((add_divergent ps acc ds).map (fun e => e.index)).Nodup) := by
  induction ds with
  | nil => intro acc h; exact h
  | cons d rest ih =>
    intro acc h
    unfold add_divergent
    split
    · exact ih acc h
    · rename_i hany
      refine ih _ ?_
      rw [List.map_append]
      refine List.Nodup.append h (by simp) ?_
      intro a ha hb
      simp only [List.map_cons, List.map_nil, List.mem_singleton] at hb
      subst hb
      rcases List.mem_map.mp ha with ⟨e, he, hei⟩
      exact hany (List.any_eq_true.mpr ⟨e, he, by simp [hei]⟩)

theorem add_divergent_complete (ps : List TSegment) (ds : List DivergentSegment) :
    ∀ (acc : List DeepEntry), ∀ d ∈ ds,
      ∃ e ∈ add_divergent ps acc ds, e.index = d.segment_index := by
  induction ds with
  | nil => intro acc d hd; cases hd
  | cons d0 rest ih =>
    intro acc d hd
    unfold add_divergent
    rcases List.mem_cons.mp hd with rfl | hd2
    · split
      · rename_i hany
        rw [List.any_eq_true] at hany
        obtain ⟨s, hs, hsi⟩ := hany
        exact ⟨s, add_divergent_mem ps rest acc s hs, by simpa using hsi⟩
      · refine ⟨⟨d.segment_index, (ps.get? d.segment_index).getD ⟨none, none, ""⟩,
          none, some d⟩, ?_, rfl⟩
        exact add_divergent_mem ps rest _ _
          (List.mem_append.mpr (Or.inr (List.mem_singleton.mpr rfl)))
    · split
      · exact ih acc d hd2
      · exact ih _ d hd2

/-- C3: tier-1 validation visits exactly the first 50 primary segments (in
index order, each once); the deep-review list is exactly the union of the
tier-1-flagged indices (score below the 80 threshold or needs_deep_review)
and the divergent indices, with every index occurring at most once; tier-2
visits the first 20 entries of that union — all of it whenever it has at
most 20 entries. -/
theorem c3_tier_selection (tier1 : ℕ → Tier1Result) (primary : Transcript)
    (secondary : Option Transcript) (agenda_items : List AgendaItemRow) :
    (validate_meeting_selection tier1 primary secondary agenda_items).tier1_scores =
      (List.range (min 50 primary.segments.length)).map (fun i => (i, tier1 i)) ∧
    ((validate_meeting_selection tier1 primary secondary agenda_items).tier2_entries.map
      (fun e => e.index)).Nodup ∧
    (validate_meeting_selection tier1 primary secondary
      agenda_items).tier2_entries.length ≤ 20 ∧
    (∀ e ∈ (validate_meeting_selection tier1 primary secondary
        agenda_items).tier2_entries,
      e.index ∈ (List.range (min 50 primary.segments.length)).filter
          (fun i => tier1Flagged (tier1 i)) ∨
        ∃ d ∈ (validate_meeting_wer primary secondary).2, e.index = d.segment_index) ∧
    ((validate_meeting_selection tier1 primary secondary
        agenda_items).deep_entries.length ≤ 20 →
      (validate_meeting_selection tier1 primary secondary agenda_items).tier2_entries =
        (validate_meeting_selection tier1 primary secondary agenda_items).deep_entries) ∧
    (∀ i ∈ (List.range (min 50 primary.segments.length)).filter
        (fun i => tier1Flagged (tier1 i)),
      ∃ e ∈ (validate_meeting_selection tier1 primary secondary
        agenda_items).deep_entries, e.index = i) ∧
    (∀ d ∈ (validate_meeting_wer primary secondary).2,
      ∃ e ∈ (validate_meeting_selection tier1 primary secondary
        agenda_items).deep_entries, e.index = d.segment_index) := by
  have hlfst : ((primary.segments.take 50).enum.map Prod.fst) =
      List.range (min 50 primary.segments.length) := by
    rw [List.enum_map_fst, List.length_take]
  have hloop := tier1_loop_spec tier1 agenda_items (primary.segments.take 50).enum
  have hscores : (validate_meeting_selection tier1 primary secondary
      agenda_items).tier1_scores =
      (List.range (min 50 primary.segments.length)).map (fun i => (i, tier1 i)) := by
    show (tier1_loop tier1 agenda_items (primary.segments.take 50).enum).1 = _
    rw [hloop]
    dsimp only
    rw [← hlfst, List.map_map]
    rfl
  have hdeep0idx : ((tier1_loop tier1 agenda_items
      (primary.segments.take 50).enum).2.map (fun e => e.index)) =
      (List.range (min 50 primary.segments.length)).filter
        (fun i => tier1Flagged (tier1 i)) := by
    rw [hloop]
    dsimp only
    rw [List.map_map]
    have hcomp : ((fun e : DeepEntry => e.index) ∘
        (fun p : ℕ × TSegment =>
          (⟨p.1, p.2, agendaTitleFor agenda_items (p.2.start.getD 0), none⟩ : DeepEntry))) =
        Prod.fst := rfl
    rw [hcomp, filter_fst_comm (primary.segments.take 50).enum
      (fun i => tier1Flagged (tier1 i)), hlfst]
  have hdeepAllNodup : (((validate_meeting_selection tier1 primary secondary
      agenda_items).deep_entries).map (fun e => e.index)).Nodup := by
    show ((add_divergent primary.segments _ _).map (fun e => e.index)).Nodup
    refine add_divergent_nodup _ _ _ ?_
    rw [hdeep0idx]
    exact (List.nodup_range _).filter _
  have htake : (validate_meeting_selection tier1 primary secondary
      agenda_items).tier2_entries =
      ((validate_meeting_selection tier1 primary secondary
        agenda_items).deep_entries).take 20 := rfl
  refine ⟨hscores, ?_, ?_, ?_, ?_, ?_, ?_⟩
  · rw [htake, List.map_take]
    exact List.Nodup.sublist (List.take_sublist _ _) hdeepAllNodup
  · rw [htake]
    exact List.length_take_le _ _
  · intro e he
    rw [htake] at he
    have he2 := List.take_subset _ _ he
    rcases add_divergent_index_mem _ _ _ e he2 with h | ⟨d, hd, hi⟩
    · left
      rw [← hdeep0idx]
      exact List.mem_map_of_mem _ h
    · right
      exact ⟨d, hd, hi⟩
  · intro hlen
    rw [htake]
    exact List.take_of_length_le hlen
  · intro i hi
    rw [← hdeep0idx] at hi
    rcases List.mem_map.mp hi with ⟨e, he, hei⟩
    exact ⟨e, add_divergent_mem _ _ _ e he, hei⟩
  · intro d hd
    exact add_divergent_complete _ _ _ d hd

/-- Witness for c3_tier_selection: one primary segment whose tier-1 score
50 falls below the 80 threshold, no secondary transcript. -/
theorem c3_tier_selection_witness :
    ((validate_meeting_selection (fun _ => ⟨50, false⟩) ⟨"t", [⟨some 0, some 1, "x"⟩]⟩
        none []).tier2_entries =
      (validate_meeting_selection (fun _ => ⟨50, false⟩) ⟨"t", [⟨some 0, some 1, "x"⟩]⟩
        none []).deep_entries) ∧
    (∃ e ∈ (validate_meeting_selection (fun _ => ⟨50, false⟩)
        ⟨"t", [⟨some 0, some 1, "x"⟩]⟩ none []).deep_entries, e.index = 0) :=
  ⟨(c3_tier_selection (fun _ => ⟨50, false⟩) ⟨"t", [⟨some 0, some 1, "x"⟩]⟩
      none []).2.2.2.2.1 (by decide),
   (c3_tier_selection (fun _ => ⟨50, false⟩) ⟨"t", [⟨some 0, some 1, "x"⟩]⟩
      none []).2.2.2.2.2.1 0 (by decide)⟩

/-! ## Diarization merge (diarization.py lines 262-347)

Insertion-ordered Python dicts are association lists; pattern_ids maps
keys of the form seg_i to candidate-name lists, agenda_ids maps segment
indices to presenters, llm_ids is the parsed LLM identification list. -/

structure SpeakerSegment where
  start : ℚ
  stop : ℚ
  speaker_id : String
  speaker_name : Option String
  confidence : ℚ
  text : String
  identification_method : String
deriving DecidableEq, Repr

structure DiarizationResult where
  clip_id : ℕ
  segments : List SpeakerSegment
  speaker_mapping : List (String × String)
  total_speakers : ℕ
  identified_speakers : ℕ
deriving DecidableEq, Repr

/-- One parsed entry of the LLM identification response; every field is
read with .get and may be missing. -/
structure LlmIdent where
  segment_index : Option ℕ
  speaker : Option String
  confidence : Option ℚ
deriving DecidableEq, Repr

def assocFind {β : Type} (l : List (String × β)) (k : String) : Option β :=
  (l.find? (fun p => p.1 == k)).map (·.2)

def assocFindNat {β : Type} (l : List (ℕ × β)) (k : ℕ) : Option β :=
  (l.find? (fun p => p.1 == k)).map (·.2)

/-- Python dict assignment d[k] = v keeping insertion order. -/
def assocSetNat (l : List (ℕ × String)) (k : ℕ) (v : String) : List (ℕ × String) :=
  if (l.find? (fun p => p.1 == k)).isSome then
    l.map (fun p => if p.1 == k then (k, v) else p)
  else l ++ [(k, v)]

/-- votes[name] = votes.get(name, 0) + w on an insertion-ordered dict. -/
def voteAdd (votes : List (String × ℚ)) (name : String) (w : ℚ) : List (String × ℚ) :=
  if (votes.find? (fun p => p.1 == name)).isSome then
    votes.map (fun p => if p.1 == name then (p.1, p.2 + w) else p)
  else votes ++ [(name, w)]

/-- Key initialisation speaker_votes[sid] = dict-if-absent. -/
def votesInit (sv : List (String × List (String × ℚ))) (sid : String) :
    List (String × List (String × ℚ)) :=
  if (sv.find? (fun p => p.1 == sid)).isSome then sv else sv ++ [(sid, [])]

/-- speaker_votes[sid][name] += w; the sid key always exists when this is
reached (it was initialised in buildPyannoteMap). -/
def votesAdd (sv : List (String × List (String × ℚ))) (sid name : String) (w : ℚ) :
    List (String × List (String × ℚ)) :=
  sv.map (fun p => if p.1 == sid then (p.1, voteAdd p.2 name w) else p)

/-- Builds pyannote_map (segment index to pyannote speaker id; later turns
overwrite earlier ones) and initialises the speaker_votes keys
(diarization.py lines 277-286): a transcript segment maps to a turn when
its whole time window nests inside the turn. -/
def buildPyannoteMap (pyannote_segments : List (ℚ × ℚ × String))
    (transcript_segments : List TSegment) :
    List (ℕ × String) × List (String × List (String × ℚ)) :=
  pyannote_segments.foldl (fun acc trip =>
    transcript_segments.enum.foldl (fun acc2 p =>
      let seg_start := p.2.start.getD 0
      let seg_end := p.2.stop.getD 0
      if trip.1 ≤ seg_start ∧ seg_end ≤ trip.2.1 then
        (assocSetNat acc2.1 p.1 trip.2.2, votesInit acc2.2 trip.2.2)
      else acc2) acc) ([], [])

/-- Direct attribution for one transcript segment (diarization.py lines
289-329): pattern evidence first, then agenda, then the first matching LLM
identification; weighted votes accumulate for the segment's pyannote id. -/
def mergeDirectSegment (pattern_ids : List (String × List String))
    (agenda_ids : List (ℕ × String)) (llm_ids : List LlmIdent)
    (pymap : List (ℕ × String)) (sv : List (String × List (String × ℚ)))
    (i : ℕ) (seg : TSegment) :
    SpeakerSegment × List (String × List (String × ℚ)) :=
  let base : SpeakerSegment :=
    { start := seg.start.getD 0, stop := seg.stop.getD 0,
      speaker_id := (assocFindNat pymap i).getD ("UNKNOWN_" ++ toString i),
      speaker_name := none, confidence := 0, text := seg.text,
      identification_method := "" }
  let pyid := assocFindNat pymap i
  match assocFind pattern_ids ("seg_" ++ toString i) with
  | some (nm :: _) =>
    ({ base with
        speaker_name := some nm
        confidence := 9/10
        identification_method := "pattern" },
     if strTruthy pyid then votesAdd sv (pyid.getD "") nm 2 else sv)
  | _ =>
    match assocFindNat agenda_ids i with
    | some presenter =>
      ({ base with
          speaker_name := some presenter
          confidence := 7/10
          identification_method := "agenda" },
       if strTruthy pyid then votesAdd sv (pyid.getD "") presenter (3/2) else sv)
    | none =>
      match llm_ids.find? (fun l => l.segment_index == some i) with
      | some l =>
        ({ base with
            speaker_name := l.speaker
            confidence := l.confidence.getD (1/2)
            identification_method := "llm" },
         if strTruthy pyid ∧ strTruthy l.speaker then
           votesAdd sv (pyid.getD "") (l.speaker.getD "") 1
         else sv)
      | none => (base, sv)

/-- The per-segment loop of merge_speaker_identifications (lines 289-329),
threading the vote table. -/
def mergeStep (pattern_ids : List (String × List String))
    (agenda_ids : List (ℕ × String)) (llm_ids : List LlmIdent)
    (pymap : List (ℕ × String)) (sv0 : List (String × List (String × ℚ)))
    (transcript_segments : List TSegment) :
    List SpeakerSegment × List (String × List (String × ℚ)) :=
  transcript_segments.enum.foldl (fun acc p =>
    let r := mergeDirectSegment pattern_ids agenda_ids llm_ids pymap acc.2 p.1 p.2
    (acc.1 ++ [r.1], r.2)) ([], sv0)

/-- Python max(votes, key=votes.get): first key attaining the maximal vote
in insertion order; none for an empty table. -/
def maxVoteName (votes : List (String × ℚ)) : Option String :=
  match votes with
  | [] => none
  | v :: rest => some ((rest.foldl (fun best p => if best.2 < p.2 then p else best) v).1)

/-- Builds the speaker mapping from the vote table (lines 331-335). -/
def buildMapping (sv : List (String × List (String × ℚ))) : List (String × String) :=
  sv.foldl (fun acc p =>
    match maxVoteName p.2 with
    | some nm => acc ++ [(p.1, nm)]
    | none => acc) []

/-- The post-pass of lines 337-342: a segment with a falsy name whose
speaker_id is in the mapping inherits the mapped name with confidence 0.6
and method pyannote_mapped. -/
def applyMapping (mapping : List (String × String)) (s : SpeakerSegment) :
    SpeakerSegment :=
  if ¬ strTruthy s.speaker_name ∧ (assocFind mapping s.speaker_id).isSome then
    { s with
      speaker_name := assocFind mapping s.speaker_id
      confidence := 6/10
      identification_method := "pyannote_mapped" }
  else s

/-- Model of diarization.merge_speaker_identifications (diarization.py
lines 262-347); the clip_id is set to 0 here and overwritten by
diarize_meeting before the JSON is written. -/
def merge_speaker_identifications (pyannote_segments : List (ℚ × ℚ × String))
    (pattern_ids : List (String × List String)) (agenda_ids : List (ℕ × String))
    (llm_ids : List LlmIdent) (transcript_segments : List TSegment) :
    DiarizationResult :=
  let pm := buildPyannoteMap pyannote_segments transcript_segments
  let step := mergeStep pattern_ids agenda_ids llm_ids pm.1 pm.2 transcript_segments
  let speaker_mapping := buildMapping step.2
  let segments := step.1.map (applyMapping speaker_mapping)
  { clip_id := 0,
    segments := segments,
    speaker_mapping := speaker_mapping,
    total_speakers := (segments.map (fun s => s.speaker_id)).eraseDups.length,
    identified_speakers := speaker_mapping.length }

/-! ## Claim C5 : speaker ids, names and the speaker mapping -/

/-- C5 counterexample: with no pyannote turns and one pattern-identified
segment, the merge result names the segment Brown with method pattern
while its speaker_id is UNKNOWN_0 and the speaker_mapping is empty — a
segment whose speaker_id is not a key of the map and whose name is not
empty, refuting the claimed invariant. -/
theorem c5_counterexample :
    ((merge_speaker_identifications [] [("seg_0", ["Brown"])] [] []
        [⟨some 0, some 1, "This is Council Member Brown"⟩]).segments.map
      (fun s => (s.speaker_id, s.speaker_name, s.identification_method))) =
      [("UNKNOWN_0", some "Brown", "pattern")] ∧
    (merge_speaker_identifications [] [("seg_0", ["Brown"])] [] []
        [⟨some 0, some 1, "This is Council Member Brown"⟩]).speaker_mapping = [] ∧
    ¬ (∀ s ∈ (merge_speaker_identifications [] [("seg_0", ["Brown"])] [] []
          [⟨some 0, some 1, "This is Council Member Brown"⟩]).segments,
        (assocFind (merge_speaker_identifications [] [("seg_0", ["Brown"])] [] []
          [⟨some 0, some 1, "This is Council Member Brown"⟩]).speaker_mapping
            s.speaker_id).isSome = true ∨ strTruthy s.speaker_name = false) := by
  decide

/-- Direct attributions carry method pattern, agenda or llm whenever they
carry a truthy name (the fallback segment has no name at all). -/
theorem mergeDirectSegment_method (pattern_ids : List (String × List String))
    (agenda_ids : List (ℕ × String)) (llm_ids : List LlmIdent)
    (pymap : List (ℕ × String)) (sv : List (String × List (String × ℚ)))
    (i : ℕ) (seg : TSegment) :
    strTruthy (mergeDirectSegment pattern_ids agenda_ids llm_ids pymap sv
        i seg).1.speaker_name = true →
      (mergeDirectSegment pattern_ids agenda_ids llm_ids pymap sv
        i seg).1.identification_method ∈ (["pattern", "agenda", "llm"] : List String) := by
  unfold mergeDirectSegment
  dsimp only
  split
  · intro _
    simp
  · split
    · intro _
      simp
    · split
      · intro _
        simp
      · intro h
        simp [strTruthy] at h

theorem mergeStep_method (pattern_ids : List (String × List String))
    (agenda_ids : List (ℕ × String)) (llm_ids : List LlmIdent)
    (pymap : List (ℕ × String)) :
    ∀ (l : List (ℕ × TSegment))
      (acc : List SpeakerSegment × List (String × List (String × ℚ))),
      (∀ s ∈ acc.1, strTruthy s.speaker_name = true →
        s.identification_method ∈ (["pattern", "agenda", "llm"] : List String)) →
      ∀ s ∈ (l.foldl (fun acc p =>
          let r := mergeDirectSegment pattern_ids agenda_ids llm_ids pymap acc.2 p.1 p.2
          (acc.1 ++ [r.1], r.2)) acc).1,
        strTruthy s.speaker_name = true →
          s.identification_method ∈ (["pattern", "agenda", "llm"] : List String) := by
  intro l
  induction l with
  | nil => intro acc hacc s hs; exact hacc s hs
  | cons p rest ih =>
    intro acc hacc s hs
    simp only [List.foldl_cons] at hs
    refine ih _ ?_ s hs
    intro t htm
    rcases List.mem_append.mp htm with h | h
    · exact hacc t h
    · rw [List.mem_singleton] at h
      subst h
      exact mergeDirectSegment_method pattern_ids agenda_ids llm_ids pymap acc.2 p.1 p.2

/-- C5 (amended): every segment of a merge result that carries a non-empty
speaker_name either was attributed directly by pattern, agenda or LLM
evidence — and such segments may keep an UNKNOWN_i speaker_id that is not
a key of the map — or inherited its name through the turn-mapping
post-pass, in which case its speaker_id is a key of speaker_mapping. -/
theorem c5_speaker_name_amended (pyannote_segments : List (ℚ × ℚ × String))
    (pattern_ids : List (String × List String)) (agenda_ids : List (ℕ × String))
    (llm_ids : List LlmIdent) (transcript_segments : List TSegment) :
    ∀ s ∈ (merge_speaker_identifications pyannote_segments pattern_ids agenda_ids
        llm_ids transcript_segments).segments,
      strTruthy s.speaker_name = true →
        s.identification_method ∈ (["pattern", "agenda", "llm"] : List String) ∨
        (assocFind (merge_speaker_identifications pyannote_segments pattern_ids
          agenda_ids llm_ids transcript_segments).speaker_mapping
            s.speaker_id).isSome = true := by
  intro s hs ht
  have hseg : (merge_speaker_identifications pyannote_segments pattern_ids agenda_ids
      llm_ids transcript_segments).segments =
      (mergeStep pattern_ids agenda_ids llm_ids
        (buildPyannoteMap pyannote_segments transcript_segments).1
        (buildPyannoteMap pyannote_segments transcript_segments).2
        transcript_segments).1.map
        (applyMapping (buildMapping (mergeStep pattern_ids agenda_ids llm_ids
          (buildPyannoteMap pyannote_segments transcript_segments).1
          (buildPyannoteMap pyannote_segments transcript_segments).2
          transcript_segments).2)) := rfl
  have hmap : (merge_speaker_identifications pyannote_segments pattern_ids agenda_ids
      llm_ids transcript_segments).speaker_mapping =
      buildMapping (mergeStep pattern_ids agenda_ids llm_ids
        (buildPyannoteMap pyannote_segments transcript_segments).1
        (buildPyannoteMap pyannote_segments transcript_segments).2
        transcript_segments).2 := rfl
  rw [hseg] at hs
  rcases List.mem_map.mp hs with ⟨s0, hs0, heq⟩
  subst heq
  rw [hmap]
  unfold applyMapping at ht ⊢
  by_cases hc : ¬ strTruthy s0.speaker_name = true ∧
      (assocFind (buildMapping (mergeStep pattern_ids agenda_ids llm_ids
        (buildPyannoteMap pyannote_segments transcript_segments).1
        (buildPyannoteMap pyannote_segments transcript_segments).2
        transcript_segments).2) s0.speaker_id).isSome = true
  · rw [if_pos hc] at ht ⊢
    right
    exact hc.2
  · rw [if_neg hc] at ht ⊢
    left
    exact mergeStep_method pattern_ids agenda_ids llm_ids
      (buildPyannoteMap pyannote_segments transcript_segments).1
      transcript_segments.enum
      ([], (buildPyannoteMap pyannote_segments transcript_segments).2)
      (by intro t htt; cases htt) s0 hs0 ht

/-- Witness for c5_speaker_name_amended at the counterexample inputs: the
Brown segment satisfies the amended disjunction through its pattern
method. -/
theorem c5_speaker_name_amended_witness :
    ("pattern" ∈ (["pattern", "agenda", "llm"] : List String)) ∨
      (assocFind (merge_speaker_identifications [] [("seg_0", ["Brown"])] [] []
          [⟨some 0, some 1, "This is Council Member Brown"⟩]).speaker_mapping
        "UNKNOWN_0").isSome = true :=
  c5_speaker_name_amended [] [("seg_0", ["Brown"])] [] []
    [⟨some 0, some 1, "This is Council Member Brown"⟩]
    ⟨0, 1, "UNKNOWN_0", some "Brown", 9/10, "This is Council Member Brown", "pattern"⟩
    (List.mem_singleton.mpr rfl) (by decide)

/-! ## JSON values and a model of json.loads (for the analyzer) -/

inductive JValue where
  | null
  | bool (b : Bool)
  | num (raw : String)
  | str (s : String)
  | arr (xs : List JValue)
  | obj (fields : List (String × JValue))

def skipWs (cs : List Char) : List Char := cs.dropWhile Char.isWhitespace

def isHexDigit (c : Char) : Bool := c.isDigit ∨ ('a' ≤ c ∧ c ≤ 'f') ∨ ('A' ≤ c ∧ c ≤ 'F')

def hexVal (c : Char) : ℕ :=
  if c.isDigit then c.toNat - '0'.toNat
  else if 'a' ≤ c ∧ c ≤ 'f' then c.toNat - 'a'.toNat + 10
  else c.toNat - 'A'.toNat + 10

/-- String-literal body parser (after the opening quote), with the JSON
escape set and the strict-mode rejection of raw control characters. -/
def parseJStringAux (acc : List Char) : List Char → Option (List Char × List Char)
  | [] => none
  | '"' :: rest => some (acc, rest)
  | '\\' :: c :: rest =>
    if c = 'n' then parseJStringAux (acc ++ ['\n']) rest
    else if c = 't' then parseJStringAux (acc ++ ['\t']) rest
    else if c = 'r' then parseJStringAux (acc ++ ['\r']) rest
    else if c = 'b' then parseJStringAux (acc ++ [Char.ofNat 8]) rest
    else if c = 'f' then parseJStringAux (acc ++ [Char.ofNat 12]) rest
    else if c = '"' ∨ c = '\\' ∨ c = '/' then parseJStringAux (acc ++ [c]) rest
    else if c = 'u' then
      match rest with
      | h1 :: h2 :: h3 :: h4 :: rest2 =>
        if isHexDigit h1 ∧ isHexDigit h2 ∧ isHexDigit h3 ∧ isHexDigit h4 then
          parseJStringAux (acc ++ [Char.ofNat
            (((hexVal h1 * 16 + hexVal h2) * 16 + hexVal h3) * 16 + hexVal h4)]) rest2
        else none
      | _ => none
    else none
  | c :: rest => if c.toNat < 32 then none else parseJStringAux (acc ++ [c]) rest

/-- Integer part of a JSON number: 0, or a nonzero digit followed by
digits (leading zeros are rejected). -/
def parseIntPart : List Char → Option (List Char × List Char)
  | [] => none
  | '0' :: rest =>
    if (rest.head?.map Char.isDigit).getD false then none else some (['0'], rest)
  | c :: rest =>
    if c.isDigit then
      some (c :: rest.takeWhile Char.isDigit, rest.dropWhile Char.isDigit)
    else none

/-- Number token parser, also accepting the Python-permitted Infinity and
negative Infinity tokens. -/
def parseJNumber (cs : List Char) : Option (JValue × List Char) :=
  let signed := match cs with
    | '-' :: rest => (true, rest)
    | _ => (false, cs)
  match signed.2 with
  | 'I' :: 'n' :: 'f' :: 'i' :: 'n' :: 'i' :: 't' :: 'y' :: rest =>
    some (.num (if signed.1 then "-Infinity" else "Infinity"), rest)
  | cs1 =>
    match parseIntPart cs1 with
    | none => none
    | some (ip, rest) =>
      let fracRes : Option (List Char × List Char) :=
        match rest with
        | '.' :: r2 =>
          let ds := r2.takeWhile Char.isDigit
          if ds = [] then none else some ('.' :: ds, r2.dropWhile Char.isDigit)
        | _ => some ([], rest)
      match fracRes with
      | none => none
      | some (fp, rest2) =>
        let expRes : Option (List Char × List Char) :=
          match rest2 with
          | c :: r3 =>
            if c = 'e' ∨ c = 'E' then
              let sgn := match r3 with
                | s :: r5 => if s = '+' ∨ s = '-' then ([s], r5) else (([] : List Char), r3)
                | [] => ([], r3)
              let ds := sgn.2.takeWhile Char.isDigit
              if ds = [] then none
              else some (c :: (sgn.1 ++ ds), sgn.2.dropWhile Char.isDigit)
            else some ([], rest2)
          | [] => some ([], rest2)
        match expRes with
        | none => none
        | some (ep, rest3) =>
          some (.num (String.mk ((if signed.1 then ['-'] else []) ++ ip ++ fp ++ ep)),
            rest3)

/-- Comma-separated item loop shared by arrays and objects, parameterised
by the element parser; fuel bounds the item count. -/
def parseItemsWith {β : Type} (pv : List Char → Option (β × List Char))
    (close : Char) : ℕ → List Char → Option (List β × List Char)
  | 0, _ => none
  | fuel + 1, cs =>
    match pv cs with
    | none => none
    | some (v, rest) =>
      match skipWs rest with
      | ',' :: rest2 =>
        match parseItemsWith pv close fuel (skipWs rest2) with
        | none => none
        | some (vs, rest3) => some (v :: vs, rest3)
      | c :: rest2 => if c = close then some ([v], rest2) else none
      | [] => none

/-- One JSON value, by recursion on fuel; initial fuel one more than the
input length suffices for any real input. -/
def parseJValue : ℕ → List Char → Option (JValue × List Char)
  | 0, _ => none
  | fuel + 1, cs =>
    match cs with
    | 'n' :: 'u' :: 'l' :: 'l' :: rest => some (.null, rest)
    | 't' :: 'r' :: 'u' :: 'e' :: rest => some (.bool true, rest)
    | 'f' :: 'a' :: 'l' :: 's' :: 'e' :: rest => some (.bool false, rest)
    | 'N' :: 'a' :: 'N' :: rest => some (.num "NaN", rest)
    | '"' :: rest =>
      match parseJStringAux [] rest with
      | none => none
      | some (body, rest2) => some (.str (String.mk body), rest2)
    | '[' :: rest =>
      match skipWs rest with
      | ']' :: rest2 => some (.arr [], rest2)
      | cs2 =>
        match parseItemsWith (fun c => parseJValue fuel (skipWs c)) ']' (fuel + 1) cs2 with
        | none => none
        | some (vs, rest2) => some (.arr vs, rest2)
    | '{' :: rest =>
      match skipWs rest with
      | '}' :: rest2 => some (.obj [], rest2)
      | cs2 =>
        match parseItemsWith (fun c =>
            match skipWs c with
            | '"' :: r =>
              match parseJStringAux [] r with
              | none => none
              | some (key, r2) =>
                match skipWs r2 with
                | ':' :: r3 =>
                  match parseJValue fuel (skipWs r3) with
                  | none => none
                  | some (v, r4) => some ((String.mk key, v), r4)
                | _ => none
            | _ => none) '}' (fuel + 1) cs2 with
        | none => none
        | some (fs, rest2) => some (.obj fs, rest2)
    | _ => parseJNumber cs

/-- Model of Python json.loads: one JSON value surrounded by optional
whitespace; anything trailing is a decode error. -/
def pyJsonLoads (s : String) : Option JValue :=
  match parseJValue (s.data.length + 1) (skipWs s.data) with
  | some (v, rest) => if skipWs rest = [] then some v else none
  | none => none

/-- Index of the last closing brace. -/
def lastBraceIdx (cs : List Char) : Option ℕ :=
  match cs.reverse.findIdx? (· = '}') with
  | some k => some (cs.length - 1 - k)
  | none => none

/-- Model of the greedy regex search of analyzer.call_ollama_analysis
(brace, anything, brace): the substring from the first opening brace to
the last closing brace when the latter comes later. -/
def extractBraced (s : String) : Option String :=
  match s.data.findIdx? (· = '{'), lastBraceIdx s.data with
  | some p, some q =>
    if p < q then some (String.mk ((s.data.drop p).take (q - p + 1))) else none
  | _, _ => none

/-- Model of analyzer.call_ollama_analysis (analyzer.py lines 225-256):
none for the llm response models an ollama exception; otherwise the braced
block is parsed, then the whole response, and finally the raw_response
fallback object is returned. -/
def call_ollama_analysis (llmResponse : Option String) : Option JValue :=
  match llmResponse with
  | none => none
  | some response_text =>
    match extractBraced response_text with
    | some m =>
      match pyJsonLoads m with
      | some v => some v
      | none =>
        match pyJsonLoads response_text with
        | some v => some v
        | none => some (.obj [("raw_response", .str response_text)])
    | none =>
      match pyJsonLoads response_text with
      | some v => some v
      | none => some (.obj [("raw_response", .str response_text)])

/-- Python truthiness of a parsed JSON value (the analyzer's if result
guard). -/
def jvTruthy : JValue → Bool
  | .null => false
  | .bool b => b
  | .str s => s ≠ ""
  | .arr xs => !xs.isEmpty
  | .obj fs => !fs.isEmpty
  | .num raw =>
    let mantissa := raw.data.takeWhile (fun c => c ≠ 'e' ∧ c ≠ 'E')
    if mantissa.any Char.isDigit then mantissa.any (fun c => c.isDigit ∧ c ≠ '0')
    else true

/-! ## Analyzer (analyzer.py)

The ollama call is the oracle llm : prompt to optional response (none
models a raised exception).  The prompt templates of ANALYSIS_PROMPTS are
represented by an injective encoding of (analysis type, truncated text,
agenda title) — downstream behaviour depends only on the response the
oracle assigns to the prompt, never on the template wording. -/

/-- One segment produced by the segmenter for the analyzer loop. -/
structure ASegment where
  agenda_item_id : Option ℕ
  item_title : Option String
  text : String
deriving DecidableEq, Repr

/-- The keys of analyzer.ANALYSIS_PROMPTS. -/
def ANALYSIS_TYPES : List String :=
  ["summary", "advocacy_intel", "vote_record", "priority_alerts",
   "opposition_tracking", "public_comment"]

/-- The default analysis_types of analyze_meeting (analyzer.py line 303). -/
def DEFAULT_ANALYSIS_TYPES : List String :=
  ["summary", "advocacy_intel", "vote_record", "priority_alerts"]

/-- The loaded diarization JSON as the analyzer reads it. -/
structure DiarizationFile where
  speaker_mapping : List (String × String)
  segments : List SpeakerSegment
deriving DecidableEq, Repr

def joinComma : List String → String
  | [] => ""
  | [s] => s
  | s :: rest => s ++ ", " ++ joinComma rest

/-- Model of analyzer.enhance_text_with_speakers (analyzer.py lines
38-70).  Python iterates a set of identified names, whose order is
unspecified; the model fixes first-occurrence order, on which no claim
depends. -/
def enhance_text_with_speakers (text : String) (diarization : Option DiarizationFile) :
    String :=
  match diarization with
  | none => text
  | some d =>
    let speaker_labels := d.segments.filter (fun s =>
      strTruthy s.speaker_name ∧ s.text ≠ "")
    if speaker_labels = [] then text
    else
      let identified := (d.speaker_mapping.map (fun p => p.2)).filter (fun s => s ≠ "")
      if identified ≠ [] then
        "[Identified speakers: " ++ joinComma identified.eraseDups ++ "]\n\n" ++ text
      else text

/-- The 6000-character cap of analyze_segment (analyzer.py lines 277-278). -/
def truncate6000 (text : String) : String :=
  if 6000 < text.data.length then String.mk (text.data.take 6000) ++ "... [truncated]"
  else text

/-- agenda_title or the General meeting content default. -/
def agendaOrDefault (t : Option String) : String :=
  if strTruthy t then t.getD "" else "General meeting content"

/-- Injective stand-in for ANALYSIS_PROMPTS[analysis_type].format(...). -/
def mkPrompt (analysis_type text agenda_title : String) : String :=
  analysis_type ++ "\n" ++ text ++ "\n" ++ agenda_title

/-- Model of analyzer.analyze_segment (analyzer.py lines 259-285). -/
def analyze_segment (llm : String → Option String) (text : String)
    (analysis_type : String) (agenda_title : Option String) : Option JValue :=
  if analysis_type ∉ ANALYSIS_TYPES then none
  else
    call_ollama_analysis (llm (mkPrompt analysis_type (truncate6000 text)
      (agendaOrDefault agenda_title)))

/-- One persisted analysis row (insert_analysis), tagged with the segment
position it came from. -/
structure AnalysisRow where
  segment_index : ℕ
  analysis_type : String
  result : JValue
  agenda_item_id : Option ℕ

structure AnalyzeOutcome where
  rows : List AnalysisRow
  status : String

/-- The rows the analyzer persists for one segment (analyzer.py lines
346-379): a segment under 50 characters is skipped outright; otherwise
each analysis type runs on the speaker-enhanced text, and a truthy parse
result is inserted. -/
def segmentRows (llm : String → Option String) (analysis_types : List String)
    (diarization : Option DiarizationFile) (i : ℕ) (seg : ASegment) :
    List AnalysisRow :=
  if seg.text.data.length < 50 then []
  else
    analysis_types.filterMap (fun ty =>
      match analyze_segment llm (enhance_text_with_speakers seg.text diarization) ty
          seg.item_title with
      | some result =>
        if jvTruthy result then some ⟨i, ty, result, seg.agenda_item_id⟩ else none
      | none => none)

/-- Model of the per-segment loop and status flip of
analyzer.analyze_meeting (analyzer.py lines 324-397).  The meeting-level
summary block (lines 381-394) is omitted: it inserts no analysis rows and
does not affect the status flip.  An empty segment list falls back to one
synthetic whole-transcript segment. -/
def analyze_meeting (llm : String → Option String) (full_text : String)
    (segments : List ASegment) (analysis_types : List String)
    (diarization : Option DiarizationFile) : AnalyzeOutcome :=
  let segs := if segments = [] then [⟨none, none, full_text⟩] else segments
  let rows := segs.enum.foldl (fun acc p =>
    acc ++ segmentRows llm analysis_types diarization p.1 p.2) []
  ⟨rows, "analyzed"⟩

/-- Both JSON-extraction attempts fail on this response text. -/
def jsonUnextractable (r : String) : Bool :=
  ((extractBraced r).bind pyJsonLoads).isNone ∧ (pyJsonLoads r).isNone

theorem call_ollama_analysis_raw {r : String} (h : jsonUnextractable r = true) :
    call_ollama_analysis (some r) = some (.obj [("raw_response", .str r)]) := by
  unfold jsonUnextractable at h
  rw [decide_eq_true_iff] at h
  obtain ⟨h1, h2⟩ := h
  unfold call_ollama_analysis
  dsimp only
  cases hb : extractBraced r with
  | none =>
    rw [Option.isNone_iff_eq_none] at h2
    dsimp only
    rw [h2]
  | some m =>
    rw [hb] at h1
    have h1m : pyJsonLoads m = none := by
      rw [Option.isNone_iff_eq_none] at h1
      exact h1
    rw [Option.isNone_iff_eq_none] at h2
    dsimp only
    rw [h1m, h2]

theorem mem_foldl_append {α β : Type} (f : α → List β) :
    ∀ (l : List α) (init : List β) (a : β),
      a ∈ l.foldl (fun acc q => acc ++ f q) init ↔
        a ∈ init ∨ ∃ p, p ∈ l ∧ a ∈ f p := by
  intro l
  induction l with
  | nil => intro init a; simp
  | cons q l ih =>
    intro init a
    rw [List.foldl_cons, ih, List.mem_append]
    constructor
    · rintro ((h | h) | ⟨p, hp, hf⟩)
      · exact Or.inl h
      · exact Or.inr ⟨q, List.mem_cons_self q l, h⟩
      · exact Or.inr ⟨p, List.mem_cons_of_mem q hp, hf⟩
    · rintro (h | ⟨p, hp, hf⟩)
      · exact Or.inl (Or.inl h)
      · rcases List.mem_cons.mp hp with hq | hl
        · rw [hq] at hf
          exact Or.inl (Or.inr hf)
        · exact Or.inr ⟨p, hl, hf⟩

theorem mem_enumFrom_of_get {α : Type} :
    ∀ (l : List α) (n i : ℕ) (a : α), l.get? i = some a →
      (n + i, a) ∈ List.enumFrom n l := by
  intro l
  induction l with
  | nil => intro n i a h; simp [List.get?] at h
  | cons x l ih =>
    intro n i a h
    cases i with
    | zero =>
      have hx : x = a := Option.some.inj h
      rw [hx, Nat.add_zero]
      exact List.mem_cons_self _ _
    | succ j =>
      have hm := ih (n + 1) j a h
      have he : n + (j + 1) = n + 1 + j := by omega
      rw [he]
      exact List.mem_cons_of_mem _ hm

theorem mem_enum_of_get {α : Type} (l : List α) (i : ℕ) (a : α)
    (h : l.get? i = some a) : (i, a) ∈ l.enum := by
  have hm := mem_enumFrom_of_get l 0 i a h
  rw [Nat.zero_add] at hm
  exact hm

theorem get_of_mem_enumFrom {α : Type} :
    ∀ (l : List α) (n : ℕ) (p : ℕ × α), p ∈ List.enumFrom n l →
      n ≤ p.1 ∧ l.get? (p.1 - n) = some p.2 := by
  intro l
  induction l with
  | nil => intro n p hp; simp [List.enumFrom] at hp
  | cons x l ih =>
    intro n p hp
    rcases List.mem_cons.mp hp with he | hm
    · rw [he]
      exact ⟨Nat.le_refl n, by rw [Nat.sub_self]; rfl⟩
    · obtain ⟨h1, h2⟩ := ih (n + 1) p hm
      refine ⟨by omega, ?_⟩
      have hx : p.1 - n = (p.1 - (n + 1)) + 1 := by omega
      rw [hx]
      exact h2

theorem get_of_mem_enum {α : Type} (l : List α) (p : ℕ × α)
    (h : p ∈ l.enum) : l.get? p.1 = some p.2 := by
  obtain ⟨_, h2⟩ := get_of_mem_enumFrom l 0 p h
  rw [Nat.sub_zero] at h2
  exact h2

/-- Every row segmentRows produces for position j is tagged with
segment_index j. -/
theorem segmentRows_segment_index (llm : String → Option String)
    (tys : List String) (d : Option DiarizationFile) (j : ℕ) (s : ASegment)
    (row : AnalysisRow) (h : row ∈ segmentRows llm tys d j s) :
    row.segment_index = j := by
  unfold segmentRows at h
  by_cases hlt : s.text.data.length < 50
  · rw [if_pos hlt] at h
    simp at h
  · rw [if_neg hlt] at h
    rw [List.mem_filterMap] at h
    obtain ⟨ty, _, hty⟩ := h
    cases ha : analyze_segment llm (enhance_text_with_speakers s.text d) ty
        s.item_title with
    | none =>
      rw [ha] at hty
      dsimp only at hty
      simp at hty
    | some result =>
      rw [ha] at hty
      dsimp only at hty
      by_cases htr : jvTruthy result = true
      · rw [if_pos htr] at hty
        have hr := Option.some.inj hty
        rw [← hr]
      · rw [if_neg htr] at hty
        simp at hty

/-- A segment list with an entry at position i is nonempty. -/
theorem segments_ne_nil {α : Type} {l : List α} {i : ℕ} {a : α}
    (h : l.get? i = some a) : l ≠ [] := by
  intro hn
  rw [hn] at h
  simp [List.get?] at h

/-- C9: when the analysis LLM's response for a segment contains no
extractable JSON, the analyzer persists an analysis record whose result is
the raw_response fallback object for that (segment, analysis type), and the
meeting still reaches status analyzed. -/
theorem c9_raw_response (llm : String → Option String) (full_text : String)
    (segments : List ASegment) (analysis_types : List String)
    (diarization : Option DiarizationFile) (i : ℕ) (seg : ASegment)
    (ty : String) (r : String)
    (hseg : segments.get? i = some seg)
    (hlen : 50 ≤ seg.text.data.length)
    (hty : ty ∈ analysis_types)
    (htyk : ty ∈ ANALYSIS_TYPES)
    (hresp : llm (mkPrompt ty
      (truncate6000 (enhance_text_with_speakers seg.text diarization))
      (agendaOrDefault seg.item_title)) = some r)
    (hfail : jsonUnextractable r = true) :
    (⟨i, ty, .obj [("raw_response", .str r)], seg.agenda_item_id⟩ : AnalysisRow) ∈
      (analyze_meeting llm full_text segments analysis_types diarization).rows ∧
    (analyze_meeting llm full_text segments analysis_types diarization).status =
      "analyzed" := by
  refine ⟨?_, rfl⟩
  have hne : segments ≠ [] := segments_ne_nil hseg
  have ha : analyze_segment llm (enhance_text_with_speakers seg.text diarization)
      ty seg.item_title = some (.obj [("raw_response", .str r)]) := by
    unfold analyze_segment
    rw [if_neg (not_not_intro htyk), hresp]
    exact call_ollama_analysis_raw hfail
  have hrowmem : (⟨i, ty, .obj [("raw_response", .str r)],
      seg.agenda_item_id⟩ : AnalysisRow) ∈
      segmentRows llm analysis_types diarization i seg := by
    unfold segmentRows
    rw [if_neg (by omega : ¬ seg.text.data.length < 50)]
    apply List.mem_filterMap.mpr
    refine ⟨ty, hty, ?_⟩
    rw [ha]
    dsimp only
    rw [if_pos (show jvTruthy (JValue.obj [("raw_response", JValue.str r)]) =
      true from rfl)]
  show (⟨i, ty, .obj [("raw_response", .str r)],
      seg.agenda_item_id⟩ : AnalysisRow) ∈
    (if segments = [] then [(⟨none, none, full_text⟩ : ASegment)]
      else segments).enum.foldl
      (fun acc p => acc ++ segmentRows llm analysis_types diarization p.1 p.2) []
  rw [if_neg hne]
  exact (mem_foldl_append
    (fun p : ℕ × ASegment => segmentRows llm analysis_types diarization p.1 p.2)
    segments.enum [] _).mpr
    (Or.inr ⟨(i, seg), mem_enum_of_get segments i seg hseg, hrowmem⟩)

def c9Resp : String := "Sure, here you go: [malformed"

def c9Seg : ASegment := ⟨some 3, some "Budget", String.mk (List.replicate 60 'a')⟩

def c9Llm : String → Option String := fun _ => some c9Resp

theorem c9_raw_response_witness :
    ([c9Seg].get? 0 = some c9Seg) ∧ 50 ≤ c9Seg.text.data.length ∧
    "summary" ∈ ["summary"] ∧ "summary" ∈ ANALYSIS_TYPES ∧
    c9Llm (mkPrompt "summary"
      (truncate6000 (enhance_text_with_speakers c9Seg.text none))
      (agendaOrDefault c9Seg.item_title)) = some c9Resp ∧
    jsonUnextractable c9Resp = true ∧
    ((⟨0, "summary", .obj [("raw_response", .str c9Resp)],
        c9Seg.agenda_item_id⟩ : AnalysisRow) ∈
      (analyze_meeting c9Llm "" [c9Seg] ["summary"] none).rows ∧
     (analyze_meeting c9Llm "" [c9Seg] ["summary"] none).status = "analyzed") :=
  ⟨rfl, by decide, by decide, by decide, rfl, by decide,
    c9_raw_response c9Llm "" [c9Seg] ["summary"] none 0 c9Seg "summary" c9Resp
      rfl (by decide) (by decide) (by decide) rfl (by decide)⟩

/-- C10: a segment whose text is shorter than 50 characters contributes no
analysis rows at all (its per-segment row computation is empty before any
LLM call is consulted), no persisted row carries its index, and the meeting
still reaches status analyzed. -/
theorem c10_short_segment_skipped (llm : String → Option String)
    (full_text : String) (segments : List ASegment)
    (analysis_types : List String) (diarization : Option DiarizationFile)
    (i : ℕ) (seg : ASegment)
    (hseg : segments.get? i = some seg)
    (hlen : seg.text.data.length < 50) :
    segmentRows llm analysis_types diarization i seg = [] ∧
    (∀ row ∈ (analyze_meeting llm full_text segments analysis_types
        diarization).rows, row.segment_index ≠ i) ∧
    (analyze_meeting llm full_text segments analysis_types diarization).status =
      "analyzed" := by
  have hz : ∀ (llm2 : String → Option String) (tys : List String)
      (d : Option DiarizationFile), segmentRows llm2 tys d i seg = [] := by
    intro llm2 tys d
    unfold segmentRows
    rw [if_pos hlen]
  refine ⟨hz llm analysis_types diarization, ?_, rfl⟩
  intro row hrow heq
  have hne : segments ≠ [] := segments_ne_nil hseg
  have hrow2 : row ∈ (if segments = [] then
      [(⟨none, none, full_text⟩ : ASegment)] else segments).enum.foldl
      (fun acc p => acc ++ segmentRows llm analysis_types diarization p.1 p.2)
      [] := hrow
  rw [if_neg hne] at hrow2
  have hsplit := (mem_foldl_append
    (fun p : ℕ × ASegment => segmentRows llm analysis_types diarization p.1 p.2)
    segments.enum [] row).mp hrow2
  rcases hsplit with h0 | ⟨p, hpe, hpr⟩
  · simp at h0
  · have hj : row.segment_index = p.1 :=
      segmentRows_segment_index llm analysis_types diarization p.1 p.2 row hpr
    have hget : segments.get? p.1 = some p.2 := get_of_mem_enum segments p hpe
    rw [hj] at heq
    rw [heq, hseg] at hget
    have hps : p.2 = seg := (Option.some.inj hget).symm
    rw [heq, hps] at hpr
    rw [hz llm analysis_types diarization] at hpr
    simp at hpr

def c10Seg : ASegment := ⟨none, none, "Short remark"⟩

def c10Llm : String → Option String := fun _ => none

theorem c10_short_segment_skipped_witness :
    ([c10Seg].get? 0 = some c10Seg) ∧ c10Seg.text.data.length < 50 ∧
    (segmentRows c10Llm ["summary"] none 0 c10Seg = [] ∧
     (∀ row ∈ (analyze_meeting c10Llm "" [c10Seg] ["summary"] none).rows,
       row.segment_index ≠ 0) ∧
     (analyze_meeting c10Llm "" [c10Seg] ["summary"] none).status =
       "analyzed") :=
  ⟨rfl, by decide,
    c10_short_segment_skipped c10Llm "" [c10Seg] ["summary"] none 0 c10Seg
      rfl (by decide)⟩

end CouncilAnalyzer
